/-
  Verification of the typescript-a2s protocol engine against its
  natural-language specification.

  The development shallowly embeds the repository's source
  (src/byteio.ts, src/fragment.ts, src/socket.ts, src/a2s.ts,
  src/protocols.ts) into Lean:
    * Node `Buffer`s become `List Nat` (one entry per octet),
    * machine integers become `Nat`/`Int` with explicit two's-complement
      conversions where the source relies on fixed-width layouts,
    * thrown exceptions become an `Err` value returned next to the
      post-call state, mirroring the fact that a JS `throw` aborts the
      method after exactly the mutations already performed,
    * the external collaborators (zlib's `inflateSync`, wall-clock time)
      become explicit parameters.
-/
import Mathlib

namespace A2S

/-- Error taxonomy of src/exceptions.ts: `BufferExhaustedError` is a
subtype of `BrokenMessageError`; `typeError` stands for the JavaScript
`TypeError` raised when a string method is invoked on a `Buffer`. -/
inductive Err where
  | bufferExhausted
  | brokenMessage (msg : String)
  | typeError
deriving Repr, DecidableEq

/-- Text encodings the repository documents as supported besides raw
buffers: `'utf-8'` (the default) and the single-byte `'latin1'`. -/
inductive Enc where
  | utf8
  | latin1
deriving Repr, DecidableEq

/-- Result of reading text from the wire: with `encoding = null` the
source returns the `Buffer` itself, otherwise `buffer.toString(encoding)`. -/
inductive TextVal where
  | raw (bytes : List Nat)
  | txt (s : String)
deriving Repr, DecidableEq

/-- UTF-8 encoding of one scalar value, by the standard range split
(this is what `Buffer.from(s, 'utf-8')` produces for well-formed text). -/
def utf8EncodeChar (c : Char) : List Nat :=
  let v := c.toNat
  if v < 0x80 then [v]
  else if v < 0x800 then [0xC0 + v / 64, 0x80 + v % 64]
  else if v < 0x10000 then
    [0xE0 + v / 4096, 0x80 + (v / 64) % 64, 0x80 + v % 64]
  else
    [0xF0 + v / 262144, 0x80 + (v / 4096) % 64, 0x80 + (v / 64) % 64,
      0x80 + v % 64]

/-- UTF-8 encoding of a string. -/
def utf8Encode (s : String) : List Nat :=
  (s.data.map utf8EncodeChar).flatten

/-- UTF-8 decoding of one code point from a lead byte and the following
bytes, returning the decoded character and the bytes left over. On
sequences produced by `utf8EncodeChar` this is exact; the handling of
ill-formed sequences (Node substitutes U+FFFD and resynchronizes) is
simplified and is never relied upon by any theorem below. -/
def utf8DecodeOne (b : Nat) (rest : List Nat) : Char × List Nat :=
  if b < 0x80 then (Char.ofNat b, rest)
  else if b < 0xE0 then
    match rest with
    | b1 :: rest2 =>
      ((if 0x80 ≤ b1 ∧ b1 < 0xC0 then
        Char.ofNat ((b - 0xC0) * 64 + (b1 - 0x80))
      else Char.ofNat 0xFFFD), rest2)
    | [] => (Char.ofNat 0xFFFD, [])
  else if b < 0xF0 then
    match rest with
    | b1 :: b2 :: rest3 =>
      ((if (0x80 ≤ b1 ∧ b1 < 0xC0) ∧ (0x80 ≤ b2 ∧ b2 < 0xC0) then
        Char.ofNat ((b - 0xE0) * 4096 + (b1 - 0x80) * 64 + (b2 - 0x80))
      else Char.ofNat 0xFFFD), rest3)
    | _ => (Char.ofNat 0xFFFD, [])
  else
    match rest with
    | b1 :: b2 :: b3 :: rest4 =>
      ((if (0x80 ≤ b1 ∧ b1 < 0xC0) ∧ (0x80 ≤ b2 ∧ b2 < 0xC0) ∧
          (0x80 ≤ b3 ∧ b3 < 0xC0) then
        Char.ofNat ((b - 0xF0) * 262144 + (b1 - 0x80) * 4096 +
            (b2 - 0x80) * 64 + (b3 - 0x80))
      else Char.ofNat 0xFFFD), rest4)
    | _ => (Char.ofNat 0xFFFD, [])

/-- Decoding loop, driven by a fuel counter that the caller sets to the
byte count (each step consumes at least one byte, so that is enough). -/
def utf8DecodeAux : Nat → List Nat → List Char
  | 0, _ => []
  | _ + 1, [] => []
  | fuel + 1, b :: rest =>
    (utf8DecodeOne b rest).1 :: utf8DecodeAux fuel (utf8DecodeOne b rest).2

/-- UTF-8 decoding of a byte sequence (`buffer.toString('utf-8')`). -/
def utf8DecodeChars (l : List Nat) : List Char :=
  utf8DecodeAux l.length l

/-- UTF-8 decoding of a byte sequence to a string. -/
def utf8Decode (l : List Nat) : String :=
  String.mk (utf8DecodeChars l)

/-- Latin-1 encoding: `Buffer.from(s, 'latin1')` keeps the low byte of
each UTF-16 code unit. -/
def latin1Encode (s : String) : List Nat :=
  s.data.map (fun c => c.toNat % 256)

/-- Latin-1 decoding: each byte is its own code point. -/
def latin1Decode (l : List Nat) : String :=
  String.mk (l.map Char.ofNat)

/-- Decoding of wire bytes into the configured text representation
(`encoding === null` returns the buffer itself). -/
def decodeText (e : Option Enc) (bs : List Nat) : TextVal :=
  match e with
  | none => .raw bs
  | some .utf8 => .txt (utf8Decode bs)
  | some .latin1 => .txt (latin1Decode bs)

/-- Encoding of a text value for the writer. `Buffer.from(value)` with
no encoding argument defaults to UTF-8, matching `ByteWriter.writeCString`
when `this.encoding === null`. -/
def encodeText (e : Option Enc) (s : String) : List Nat :=
  match e with
  | some .latin1 => latin1Encode s
  | _ => utf8Encode s

/-- Little-endian byte decomposition of an unsigned value into `n` bytes,
the layout used by Node's `writeUIntNLE` family for in-range values. -/
def uintLE : Nat → Nat → List Nat
  | 0, _ => []
  | n + 1, v => v % 256 :: uintLE n (v / 256)

/-- Little-endian recomposition, the layout read by `readUIntNLE`. -/
def leVal : List Nat → Nat
  | [] => 0
  | b :: rest => b + 256 * leVal rest

/-- Two's-complement reinterpretation of an `n`-byte unsigned value, as
performed by Node's `readIntNLE` family. -/
def sintOf (n : Nat) (u : Nat) : Int :=
  if u < 2 ^ (8 * n - 1) then (u : Int) else (u : Int) - 2 ^ (8 * n)

/-- Two's-complement `n`-byte little-endian layout of a signed value, as
stored by Node's `writeIntNLE` family for in-range values. -/
def intLE (n : Nat) (v : Int) : List Nat :=
  uintLE n (v % ((2 : Int) ^ (8 * n))).toNat

/-- State of src/byteio.ts `ByteReader`: the buffer, the cursor, the
configured text encoding and the endianness flag. -/
structure ByteReader where
  buffer : List Nat
  position : Nat
  encoding : Option Enc
  littleEndian : Bool
deriving Repr, DecidableEq

namespace ByteReader

/-- Bytes not yet consumed by the reader. -/
def rem (r : ByteReader) : List Nat :=
  r.buffer.drop r.position

/-- Cursor advanced by `k` bytes. -/
def adv (r : ByteReader) (k : Nat) : ByteReader :=
  { r with position := r.position + k }

/-- Translation of `ByteReader.read`: the bounds check precedes the
cursor increment, so a failing call leaves the state untouched and the
error is returned next to the unchanged reader. -/
def read (r : ByteReader) (size : Nat) : Except Err (List Nat) × ByteReader :=
  if r.buffer.length < r.position + size then
    (.error .bufferExhausted, r)
  else
    (.ok ((r.buffer.drop r.position).take size), r.adv size)

/-- Translation of `ByteReader.peek` with no argument: the rest of the
buffer, without advancing. -/
def peek (r : ByteReader) : List Nat :=
  r.rem

end ByteReader

/-- Sequencing of reader operations: on success continue with the value
and the new state, on failure propagate the error together with the state
the failing operation left behind (a thrown exception aborts the caller). -/
def pstep {α β : Type} (p : Except Err α × ByteReader)
    (f : α → ByteReader → Except Err β × ByteReader) :
    Except Err β × ByteReader :=
  match p with
  | (.ok a, r) => f a r
  | (.error e, r) => (.error e, r)

namespace ByteReader

/-- Translation of `readUint8`. -/
def readUint8 (r : ByteReader) : Except Err Nat × ByteReader :=
  pstep (r.read 1) fun data r => (.ok (leVal data), r)

/-- Translation of `readInt8` (`data.readInt8(0)`). -/
def readInt8 (r : ByteReader) : Except Err Int × ByteReader :=
  pstep (r.read 1) fun data r => (.ok (sintOf 1 (leVal data)), r)

/-- Translation of `readUint16` (LE or BE per the flag). -/
def readUint16 (r : ByteReader) : Except Err Nat × ByteReader :=
  pstep (r.read 2) fun data r =>
    (.ok (if r.littleEndian then leVal data else leVal data.reverse), r)

/-- Translation of `readInt16`. -/
def readInt16 (r : ByteReader) : Except Err Int × ByteReader :=
  pstep (r.read 2) fun data r =>
    (.ok (sintOf 2 (if r.littleEndian then leVal data else leVal data.reverse)), r)

/-- Translation of `readUint32`. -/
def readUint32 (r : ByteReader) : Except Err Nat × ByteReader :=
  pstep (r.read 4) fun data r =>
    (.ok (if r.littleEndian then leVal data else leVal data.reverse), r)

/-- Translation of `readInt32`. -/
def readInt32 (r : ByteReader) : Except Err Int × ByteReader :=
  pstep (r.read 4) fun data r =>
    (.ok (sintOf 4 (if r.littleEndian then leVal data else leVal data.reverse)), r)

/-- Translation of `readUint64` (a JS `bigint`, here a `Nat`). -/
def readUint64 (r : ByteReader) : Except Err Nat × ByteReader :=
  pstep (r.read 8) fun data r =>
    (.ok (if r.littleEndian then leVal data else leVal data.reverse), r)

/-- Translation of `readInt64` (a JS `bigint`, here an `Int`). -/
def readInt64 (r : ByteReader) : Except Err Int × ByteReader :=
  pstep (r.read 8) fun data r =>
    (.ok (sintOf 8 (if r.littleEndian then leVal data else leVal data.reverse)), r)

/-- Translation of `readBool`: `readInt8() !== 0`. -/
def readBool (r : ByteReader) : Except Err Bool × ByteReader :=
  pstep r.readInt8 fun v r => (.ok (decide (v ≠ 0)), r)

/-- Translation of `readChar`: one byte, decoded per the configured
encoding or returned as a raw one-byte buffer. -/
def readChar (r : ByteReader) : Except Err TextVal × ByteReader :=
  pstep (r.read 1) fun data r => (.ok (decodeText r.encoding data), r)

end ByteReader

/-- Body of the `readCString` loop expressed on the remaining bytes: the
octets before the first zero byte together with the number of bytes the
loop consumes (terminator included); `none` when the buffer runs out
before a zero byte, which is when the inner `readUint8` throws. -/
def cstrBytes : List Nat → Option (List Nat × Nat)
  | [] => none
  | b :: rest =>
    if b = 0 then some ([], 1)
    else
      match cstrBytes rest with
      | some (bs, k) => some (b :: bs, k + 1)
      | none => none

namespace ByteReader

/-- Translation of `readCString`: read bytes via `readUint8` until a zero
byte, then decode the collected bytes. When no terminator exists the loop
consumes the whole buffer before the final `readUint8` throws, so the
failing state sits at the end of the buffer. -/
def readCString (r : ByteReader) : Except Err TextVal × ByteReader :=
  match cstrBytes r.rem with
  | some (bs, k) => (.ok (decodeText r.encoding bs), r.adv k)
  | none => (.error .bufferExhausted, r.adv r.rem.length)

end ByteReader

/-- State of src/byteio.ts `ByteWriter`: the accumulated chunks, the
configured encoding and the endianness flag. -/
structure ByteWriter where
  buffers : List (List Nat)
  encoding : Option Enc
  littleEndian : Bool
deriving Repr, DecidableEq

namespace ByteWriter

/-- Translation of `write`: append one chunk. -/
def write (w : ByteWriter) (data : List Nat) : ByteWriter :=
  { w with buffers := w.buffers ++ [data] }

/-- Translation of `toBuffer`: `Buffer.concat` of the chunks. -/
def toBuffer (w : ByteWriter) : List Nat :=
  w.buffers.flatten

/-- Translation of `writeUint8` for in-range values. -/
def writeUint8 (w : ByteWriter) (v : Nat) : ByteWriter :=
  w.write (uintLE 1 v)

/-- Translation of `writeInt8` for in-range values. -/
def writeInt8 (w : ByteWriter) (v : Int) : ByteWriter :=
  w.write (intLE 1 v)

/-- Translation of `writeUint16` (LE or BE per the flag). -/
def writeUint16 (w : ByteWriter) (v : Nat) : ByteWriter :=
  w.write (if w.littleEndian then uintLE 2 v else (uintLE 2 v).reverse)

/-- Translation of `writeInt16`. -/
def writeInt16 (w : ByteWriter) (v : Int) : ByteWriter :=
  w.write (if w.littleEndian then intLE 2 v else (intLE 2 v).reverse)

/-- Translation of `writeUint32`. -/
def writeUint32 (w : ByteWriter) (v : Nat) : ByteWriter :=
  w.write (if w.littleEndian then uintLE 4 v else (uintLE 4 v).reverse)

/-- Translation of `writeInt32`. -/
def writeInt32 (w : ByteWriter) (v : Int) : ByteWriter :=
  w.write (if w.littleEndian then intLE 4 v else (intLE 4 v).reverse)

/-- Translation of `writeUint64`. -/
def writeUint64 (w : ByteWriter) (v : Nat) : ByteWriter :=
  w.write (if w.littleEndian then uintLE 8 v else (uintLE 8 v).reverse)

/-- Translation of `writeInt64`. -/
def writeInt64 (w : ByteWriter) (v : Int) : ByteWriter :=
  w.write (if w.littleEndian then intLE 8 v else (intLE 8 v).reverse)

/-- Translation of `writeBool`: `writeInt8(value ? 1 : 0)`. -/
def writeBool (w : ByteWriter) (v : Bool) : ByteWriter :=
  w.writeInt8 (if v then 1 else 0)

/-- Translation of `writeCString`: encode a string per the configured
encoding (UTF-8 when none is set) or take a buffer verbatim, then append
one zero byte. -/
def writeCString (w : ByteWriter) (v : TextVal) : ByteWriter :=
  let buffer :=
    match v with
    | .txt s => encodeText w.encoding s
    | .raw bs => bs
  (w.write buffer).writeUint8 0

end ByteWriter

/-- Reader over a fresh buffer, as built by `new ByteReader(buffer, littleEndian, encoding)`:
the cursor starts at zero. -/
def mkReader (buffer : List Nat) (littleEndian : Bool) (encoding : Option Enc) :
    ByteReader :=
  ⟨buffer, 0, encoding, littleEndian⟩

/-- Writer with no chunks yet, as built by `new ByteWriter(littleEndian, encoding)`. -/
def mkWriter (littleEndian : Bool) (encoding : Option Enc) : ByteWriter :=
  ⟨[], encoding, littleEndian⟩

lemma length_uintLE (n v : Nat) : (uintLE n v).length = n := by
  induction n generalizing v with
  | zero => rfl
  | succ n ih => simp [uintLE, ih]

lemma leVal_uintLE (n v : Nat) (h : v < 256 ^ n) : leVal (uintLE n v) = v := by
  induction n generalizing v with
  | zero =>
    simp only [pow_zero] at h
    simp [uintLE, leVal]
    omega
  | succ n ih =>
    have h2 : v / 256 < 256 ^ n := by
      rw [Nat.div_lt_iff_lt_mul (by norm_num)]
      calc v < 256 ^ (n + 1) := h
        _ = 256 ^ n * 256 := by ring
    simp [uintLE, leVal, ih _ h2]
    omega

lemma signed_roundtrip8 (v : Int) (h1 : -128 ≤ v) (h2 : v < 128) :
    sintOf 1 (leVal (intLE 1 v)) = v := by
  have hm : (0 : Int) ≤ v % 256 := Int.emod_nonneg v (by norm_num)
  have hm2 : v % 256 < 256 := Int.emod_lt_of_pos v (by norm_num)
  rw [intLE, leVal_uintLE 1 _ (by simp; omega)]
  simp only [sintOf]
  norm_num
  omega

lemma signed_roundtrip16 (v : Int) (h1 : -32768 ≤ v) (h2 : v < 32768) :
    sintOf 2 (leVal (intLE 2 v)) = v := by
  have hm : (0 : Int) ≤ v % 65536 := Int.emod_nonneg v (by norm_num)
  have hm2 : v % 65536 < 65536 := Int.emod_lt_of_pos v (by norm_num)
  rw [intLE, leVal_uintLE 2 _ (by simp; omega)]
  simp only [sintOf]
  norm_num
  omega

lemma signed_roundtrip32 (v : Int) (h1 : -2147483648 ≤ v) (h2 : v < 2147483648) :
    sintOf 4 (leVal (intLE 4 v)) = v := by
  have hm : (0 : Int) ≤ v % 4294967296 := Int.emod_nonneg v (by norm_num)
  have hm2 : v % 4294967296 < 4294967296 := Int.emod_lt_of_pos v (by norm_num)
  rw [intLE, leVal_uintLE 4 _ (by simp; omega)]
  simp only [sintOf]
  norm_num
  omega

lemma signed_roundtrip64 (v : Int) (h1 : -9223372036854775808 ≤ v)
    (h2 : v < 9223372036854775808) :
    sintOf 8 (leVal (intLE 8 v)) = v := by
  have hm : (0 : Int) ≤ v % 18446744073709551616 := Int.emod_nonneg v (by norm_num)
  have hm2 : v % 18446744073709551616 < 18446744073709551616 :=
    Int.emod_lt_of_pos v (by norm_num)
  rw [intLE, leVal_uintLE 8 _ (by simp; omega)]
  simp only [sintOf]
  norm_num
  omega

lemma read_all (bytes : List Nat) (le : Bool) (e : Option Enc) (k : Nat)
    (h : bytes.length = k) :
    (mkReader bytes le e).read k = (.ok bytes, (mkReader bytes le e).adv k) := by
  simp [mkReader, ByteReader.read, ByteReader.adv, h]

lemma utf8DecodeAux_encodeChar (fuel : Nat) (c : Char) (rest : List Nat) :
    utf8DecodeAux (fuel + 1) (utf8EncodeChar c ++ rest) = c :: utf8DecodeAux fuel rest := by
  by_cases h1 : c.toNat < 0x80
  · have he : utf8EncodeChar c = [c.toNat] := by simp [utf8EncodeChar, h1]
    rw [he]
    show utf8DecodeAux (fuel + 1) (c.toNat :: rest) = _
    rw [utf8DecodeAux]
    have hd : utf8DecodeOne c.toNat rest = (c, rest) := by
      simp [utf8DecodeOne, h1, Char.ofNat_toNat]
    rw [hd]
  · by_cases h2 : c.toNat < 0x800
    · have he : utf8EncodeChar c = [0xC0 + c.toNat / 64, 0x80 + c.toNat % 64] := by
        simp [utf8EncodeChar, h1, h2]
      rw [he]
      show utf8DecodeAux (fuel + 1)
        ((0xC0 + c.toNat / 64) :: (0x80 + c.toNat % 64) :: rest) = _
      rw [utf8DecodeAux]
      have hd : utf8DecodeOne (0xC0 + c.toNat / 64) ((0x80 + c.toNat % 64) :: rest) =
          (c, rest) := by
        have hb : ¬(0xC0 + c.toNat / 64 < 0x80) := by omega
        have hb2 : 0xC0 + c.toNat / 64 < 0xE0 := by omega
        have hc1 : 0x80 ≤ 0x80 + c.toNat % 64 ∧ 0x80 + c.toNat % 64 < 0xC0 := by omega
        simp only [utf8DecodeOne, hb, hb2, hc1, if_false, if_true]
        have hv : (0xC0 + c.toNat / 64 - 0xC0) * 64 + (0x80 + c.toNat % 64 - 0x80) =
            c.toNat := by omega
        rw [hv, Char.ofNat_toNat]
        simp
      rw [hd]
    · by_cases h3 : c.toNat < 0x10000
      · have he : utf8EncodeChar c =
            [0xE0 + c.toNat / 4096, 0x80 + c.toNat / 64 % 64, 0x80 + c.toNat % 64] := by
          simp [utf8EncodeChar, h1, h2, h3]
        rw [he]
        show utf8DecodeAux (fuel + 1) ((0xE0 + c.toNat / 4096) ::
          (0x80 + c.toNat / 64 % 64) :: (0x80 + c.toNat % 64) :: rest) = _
        rw [utf8DecodeAux]
        have hd : utf8DecodeOne (0xE0 + c.toNat / 4096)
            ((0x80 + c.toNat / 64 % 64) :: (0x80 + c.toNat % 64) :: rest) = (c, rest) := by
          have hb : ¬(0xE0 + c.toNat / 4096 < 0x80) := by omega
          have hb2 : ¬(0xE0 + c.toNat / 4096 < 0xE0) := by omega
          have hb3 : 0xE0 + c.toNat / 4096 < 0xF0 := by omega
          have hc1 : (0x80 ≤ 0x80 + c.toNat / 64 % 64 ∧ 0x80 + c.toNat / 64 % 64 < 0xC0) ∧
              (0x80 ≤ 0x80 + c.toNat % 64 ∧ 0x80 + c.toNat % 64 < 0xC0) := by omega
          simp only [utf8DecodeOne, hb, hb2, hb3, hc1, if_false, if_true]
          have hv : (0xE0 + c.toNat / 4096 - 0xE0) * 4096 +
              (0x80 + c.toNat / 64 % 64 - 0x80) * 64 +
              (0x80 + c.toNat % 64 - 0x80) = c.toNat := by omega
          rw [hv, Char.ofNat_toNat]
          simp
        rw [hd]
      · have he : utf8EncodeChar c = [0xF0 + c.toNat / 262144,
            0x80 + c.toNat / 4096 % 64, 0x80 + c.toNat / 64 % 64,
            0x80 + c.toNat % 64] := by
          simp [utf8EncodeChar, h1, h2, h3]
        rw [he]
        show utf8DecodeAux (fuel + 1) ((0xF0 + c.toNat / 262144) ::
          (0x80 + c.toNat / 4096 % 64) :: (0x80 + c.toNat / 64 % 64) ::
          (0x80 + c.toNat % 64) :: rest) = _
        rw [utf8DecodeAux]
        have hd : utf8DecodeOne (0xF0 + c.toNat / 262144)
            ((0x80 + c.toNat / 4096 % 64) :: (0x80 + c.toNat / 64 % 64) ::
              (0x80 + c.toNat % 64) :: rest) = (c, rest) := by
          have hb : ¬(0xF0 + c.toNat / 262144 < 0x80) := by omega
          have hb2 : ¬(0xF0 + c.toNat / 262144 < 0xE0) := by omega
          have hb3 : ¬(0xF0 + c.toNat / 262144 < 0xF0) := by omega
          have hc1 : (0x80 ≤ 0x80 + c.toNat / 4096 % 64 ∧
              0x80 + c.toNat / 4096 % 64 < 0xC0) ∧
              (0x80 ≤ 0x80 + c.toNat / 64 % 64 ∧ 0x80 + c.toNat / 64 % 64 < 0xC0) ∧
              (0x80 ≤ 0x80 + c.toNat % 64 ∧ 0x80 + c.toNat % 64 < 0xC0) := by omega
          simp only [utf8DecodeOne, hb, hb2, hb3, hc1, if_false, if_true]
          have hv : (0xF0 + c.toNat / 262144 - 0xF0) * 262144 +
              (0x80 + c.toNat / 4096 % 64 - 0x80) * 4096 +
              (0x80 + c.toNat / 64 % 64 - 0x80) * 64 +
              (0x80 + c.toNat % 64 - 0x80) = c.toNat := by omega
          rw [hv, Char.ofNat_toNat]
          simp
        rw [hd]

lemma utf8DecodeAux_encode (l : List Char) : ∀ (fuel : Nat), l.length ≤ fuel →
    utf8DecodeAux fuel ((l.map utf8EncodeChar).flatten) = l := by
  induction l with
  | nil =>
    intro fuel _
    cases fuel <;> simp [utf8DecodeAux]
  | cons c l ih =>
    intro fuel h
    cases fuel with
    | zero => simp at h
    | succ f =>
      simp only [List.map_cons, List.flatten_cons, List.append_assoc]
      rw [utf8DecodeAux_encodeChar, ih f (by simpa using h)]

lemma length_le_utf8Encode (l : List Char) :
    l.length ≤ ((l.map utf8EncodeChar).flatten).length := by
  induction l with
  | nil => simp
  | cons c l ih =>
    have : 1 ≤ (utf8EncodeChar c).length := by
      simp only [utf8EncodeChar]
      split_ifs <;> simp
    simp only [List.map_cons, List.flatten_cons, List.length_append, List.length_cons]
    omega

lemma utf8_roundtrip (s : String) : utf8Decode (utf8Encode s) = s := by
  rw [utf8Decode, utf8Encode, utf8DecodeChars,
    utf8DecodeAux_encode s.data _ (length_le_utf8Encode s.data)]

lemma latin1_roundtrip (s : String) (h : ∀ c ∈ s.data, c.toNat < 256) :
    latin1Decode (latin1Encode s) = s := by
  rw [latin1Decode, latin1Encode, List.map_map]
  have : s.data.map (Char.ofNat ∘ fun c => c.toNat % 256) = s.data.map id := by
    apply List.map_congr_left
    intro c hc
    simp only [Function.comp_apply, id_eq, Nat.mod_eq_of_lt (h c hc), Char.ofNat_toNat]
  rw [this, List.map_id]

lemma utf8EncodeChar_ne_zero (c : Char) (hc : c.toNat ≠ 0) :
    ∀ b ∈ utf8EncodeChar c, b ≠ 0 := by
  intro b hb
  simp only [utf8EncodeChar] at hb
  split_ifs at hb <;>
    simp only [List.mem_cons, List.not_mem_nil, or_false] at hb
  · omega
  · rcases hb with h | h <;> omega
  · rcases hb with h | h | h <;> omega
  · rcases hb with h | h | h | h <;> omega

lemma cstrBytes_append (s rest : List Nat) (h : ∀ b ∈ s, b ≠ 0) :
    cstrBytes (s ++ 0 :: rest) = some (s, s.length + 1) := by
  induction s with
  | nil => simp [cstrBytes]
  | cons b s ih =>
    have hb : b ≠ 0 := h b (by simp)
    have ih2 := ih (fun x hx => h x (by simp [hx]))
    simp only [List.cons_append]
    rw [cstrBytes, if_neg hb, ih2]
    simp

lemma readCString_step (r : ByteReader) (s rest : List Nat)
    (h : r.rem = s ++ 0 :: rest) (hs : ∀ b ∈ s, b ≠ 0) :
    r.readCString = (.ok (decodeText r.encoding s), r.adv (s.length + 1)) := by
  rw [ByteReader.readCString, h, cstrBytes_append s rest hs]

lemma writeCString_toBuffer (le : Bool) (e : Option Enc) (v : TextVal) :
    ((mkWriter le e).writeCString v).toBuffer =
      (match v with | .txt s => encodeText e s | .raw bs => bs) ++ [0] := by
  cases v <;>
    simp [mkWriter, ByteWriter.writeCString, ByteWriter.write, ByteWriter.writeUint8,
      ByteWriter.toBuffer, uintLE]

lemma utf8Encode_ne_zero (s : String) (h : ∀ c ∈ s.data, c.toNat ≠ 0) :
    ∀ b ∈ utf8Encode s, b ≠ 0 := by
  intro b hb
  rw [utf8Encode] at hb
  simp only [List.mem_flatten, List.mem_map] at hb
  obtain ⟨l, ⟨c, hc, rfl⟩, hbl⟩ := hb
  exact utf8EncodeChar_ne_zero c (h c hc) b hbl

/-- C5: decoding the bytes produced by the corresponding encoder returns
the original value for every supported primitive width (signed and
unsigned 8/16/32/64-bit integers), for booleans and for null-terminated
strings, in both endianness modes; strings round-trip in each of the
three text configurations (raw buffers, UTF-8, Latin-1) for every value
those configurations can represent (no interior NUL; for Latin-1, code
points below 256). -/
theorem claim_C5_codec_roundtrip :
    (∀ (le : Bool) (e : Option Enc) (v : Nat), v < 256 →
      (ByteReader.readUint8 (mkReader ((mkWriter le e).writeUint8 v).toBuffer le e)).1 =
        .ok v) ∧
    (∀ (le : Bool) (e : Option Enc) (v : Int), -128 ≤ v → v < 128 →
      (ByteReader.readInt8 (mkReader ((mkWriter le e).writeInt8 v).toBuffer le e)).1 =
        .ok v) ∧
    (∀ (le : Bool) (e : Option Enc) (v : Nat), v < 65536 →
      (ByteReader.readUint16 (mkReader ((mkWriter le e).writeUint16 v).toBuffer le e)).1 =
        .ok v) ∧
    (∀ (le : Bool) (e : Option Enc) (v : Int), -32768 ≤ v → v < 32768 →
      (ByteReader.readInt16 (mkReader ((mkWriter le e).writeInt16 v).toBuffer le e)).1 =
        .ok v) ∧
    (∀ (le : Bool) (e : Option Enc) (v : Nat), v < 4294967296 →
      (ByteReader.readUint32 (mkReader ((mkWriter le e).writeUint32 v).toBuffer le e)).1 =
        .ok v) ∧
    (∀ (le : Bool) (e : Option Enc) (v : Int), -2147483648 ≤ v → v < 2147483648 →
      (ByteReader.readInt32 (mkReader ((mkWriter le e).writeInt32 v).toBuffer le e)).1 =
        .ok v) ∧
    (∀ (le : Bool) (e : Option Enc) (v : Nat), v < 18446744073709551616 →
      (ByteReader.readUint64 (mkReader ((mkWriter le e).writeUint64 v).toBuffer le e)).1 =
        .ok v) ∧
    (∀ (le : Bool) (e : Option Enc) (v : Int),
      -9223372036854775808 ≤ v → v < 9223372036854775808 →
      (ByteReader.readInt64 (mkReader ((mkWriter le e).writeInt64 v).toBuffer le e)).1 =
        .ok v) ∧
    (∀ (le : Bool) (e : Option Enc) (v : Bool),
      (ByteReader.readBool (mkReader ((mkWriter le e).writeBool v).toBuffer le e)).1 =
        .ok v) ∧
    (∀ (le : Bool) (bs : List Nat), (∀ b ∈ bs, b ≠ 0 ∧ b < 256) →
      (ByteReader.readCString
        (mkReader ((mkWriter le none).writeCString (.raw bs)).toBuffer le none)).1 =
        .ok (.raw bs)) ∧
    (∀ (le : Bool) (s : String), (∀ c ∈ s.data, c.toNat ≠ 0) →
      (ByteReader.readCString
        (mkReader ((mkWriter le (some .utf8)).writeCString (.txt s)).toBuffer le
          (some .utf8))).1 = .ok (.txt s)) ∧
    (∀ (le : Bool) (s : String), (∀ c ∈ s.data, c.toNat ≠ 0 ∧ c.toNat < 256) →
      (ByteReader.readCString
        (mkReader ((mkWriter le (some .latin1)).writeCString (.txt s)).toBuffer le
          (some .latin1))).1 = .ok (.txt s)) := by
  refine ⟨?_, ?_, ?_, ?_, ?_, ?_, ?_, ?_, ?_, ?_, ?_, ?_⟩
  · intro le e v h
    have hb : ((mkWriter le e).writeUint8 v).toBuffer = uintLE 1 v := by
      simp [mkWriter, ByteWriter.writeUint8, ByteWriter.write, ByteWriter.toBuffer]
    rw [hb, ByteReader.readUint8, read_all _ le e 1 (length_uintLE 1 v)]
    simp [pstep, leVal_uintLE 1 v (by simpa using h)]
  · intro le e v h1 h2
    have hb : ((mkWriter le e).writeInt8 v).toBuffer = intLE 1 v := by
      simp [mkWriter, ByteWriter.writeInt8, ByteWriter.write, ByteWriter.toBuffer]
    rw [hb, ByteReader.readInt8, read_all _ le e 1 (by simp [intLE, length_uintLE])]
    simp [pstep, signed_roundtrip8 v h1 h2]
  · intro le e v h
    cases le
    · have hb : ((mkWriter false e).writeUint16 v).toBuffer = (uintLE 2 v).reverse := by
        simp [mkWriter, ByteWriter.writeUint16, ByteWriter.write, ByteWriter.toBuffer]
      rw [hb, ByteReader.readUint16, read_all _ false e 2 (by simp [length_uintLE])]
      simp [pstep, mkReader, ByteReader.adv, List.reverse_reverse, leVal_uintLE 2 v (by norm_num; omega)]
    · have hb : ((mkWriter true e).writeUint16 v).toBuffer = uintLE 2 v := by
        simp [mkWriter, ByteWriter.writeUint16, ByteWriter.write, ByteWriter.toBuffer]
      rw [hb, ByteReader.readUint16, read_all _ true e 2 (length_uintLE 2 v)]
      simp [pstep, mkReader, ByteReader.adv, List.reverse_reverse, leVal_uintLE 2 v (by norm_num; omega)]
  · intro le e v h1 h2
    cases le
    · have hb : ((mkWriter false e).writeInt16 v).toBuffer = (intLE 2 v).reverse := by
        simp [mkWriter, ByteWriter.writeInt16, ByteWriter.write, ByteWriter.toBuffer]
      rw [hb, ByteReader.readInt16,
        read_all _ false e 2 (by simp [intLE, length_uintLE])]
      simp [pstep, mkReader, ByteReader.adv, List.reverse_reverse, signed_roundtrip16 v h1 h2]
    · have hb : ((mkWriter true e).writeInt16 v).toBuffer = intLE 2 v := by
        simp [mkWriter, ByteWriter.writeInt16, ByteWriter.write, ByteWriter.toBuffer]
      rw [hb, ByteReader.readInt16,
        read_all _ true e 2 (by simp [intLE, length_uintLE])]
      simp [pstep, mkReader, ByteReader.adv, List.reverse_reverse, signed_roundtrip16 v h1 h2]
  · intro le e v h
    cases le
    · have hb : ((mkWriter false e).writeUint32 v).toBuffer = (uintLE 4 v).reverse := by
        simp [mkWriter, ByteWriter.writeUint32, ByteWriter.write, ByteWriter.toBuffer]
      rw [hb, ByteReader.readUint32, read_all _ false e 4 (by simp [length_uintLE])]
      simp [pstep, mkReader, ByteReader.adv, List.reverse_reverse, leVal_uintLE 4 v (by norm_num; omega)]
    · have hb : ((mkWriter true e).writeUint32 v).toBuffer = uintLE 4 v := by
        simp [mkWriter, ByteWriter.writeUint32, ByteWriter.write, ByteWriter.toBuffer]
      rw [hb, ByteReader.readUint32, read_all _ true e 4 (length_uintLE 4 v)]
      simp [pstep, mkReader, ByteReader.adv, List.reverse_reverse, leVal_uintLE 4 v (by norm_num; omega)]
  · intro le e v h1 h2
    cases le
    · have hb : ((mkWriter false e).writeInt32 v).toBuffer = (intLE 4 v).reverse := by
        simp [mkWriter, ByteWriter.writeInt32, ByteWriter.write, ByteWriter.toBuffer]
      rw [hb, ByteReader.readInt32,
        read_all _ false e 4 (by simp [intLE, length_uintLE])]
      simp [pstep, mkReader, ByteReader.adv, List.reverse_reverse, signed_roundtrip32 v h1 h2]
    · have hb : ((mkWriter true e).writeInt32 v).toBuffer = intLE 4 v := by
        simp [mkWriter, ByteWriter.writeInt32, ByteWriter.write, ByteWriter.toBuffer]
      rw [hb, ByteReader.readInt32,
        read_all _ true e 4 (by simp [intLE, length_uintLE])]
      simp [pstep, mkReader, ByteReader.adv, List.reverse_reverse, signed_roundtrip32 v h1 h2]
  · intro le e v h
    cases le
    · have hb : ((mkWriter false e).writeUint64 v).toBuffer = (uintLE 8 v).reverse := by
        simp [mkWriter, ByteWriter.writeUint64, ByteWriter.write, ByteWriter.toBuffer]
      rw [hb, ByteReader.readUint64, read_all _ false e 8 (by simp [length_uintLE])]
      simp [pstep, mkReader, ByteReader.adv, List.reverse_reverse, leVal_uintLE 8 v (by norm_num; omega)]
    · have hb : ((mkWriter true e).writeUint64 v).toBuffer = uintLE 8 v := by
        simp [mkWriter, ByteWriter.writeUint64, ByteWriter.write, ByteWriter.toBuffer]
      rw [hb, ByteReader.readUint64, read_all _ true e 8 (length_uintLE 8 v)]
      simp [pstep, mkReader, ByteReader.adv, List.reverse_reverse, leVal_uintLE 8 v (by norm_num; omega)]
  · intro le e v h1 h2
    cases le
    · have hb : ((mkWriter false e).writeInt64 v).toBuffer = (intLE 8 v).reverse := by
        simp [mkWriter, ByteWriter.writeInt64, ByteWriter.write, ByteWriter.toBuffer]
      rw [hb, ByteReader.readInt64,
        read_all _ false e 8 (by simp [intLE, length_uintLE])]
      simp [pstep, mkReader, ByteReader.adv, List.reverse_reverse, signed_roundtrip64 v h1 h2]
    · have hb : ((mkWriter true e).writeInt64 v).toBuffer = intLE 8 v := by
        simp [mkWriter, ByteWriter.writeInt64, ByteWriter.write, ByteWriter.toBuffer]
      rw [hb, ByteReader.readInt64,
        read_all _ true e 8 (by simp [intLE, length_uintLE])]
      simp [pstep, mkReader, ByteReader.adv, List.reverse_reverse, signed_roundtrip64 v h1 h2]
  · intro le e v
    have hb : ((mkWriter le e).writeBool v).toBuffer = intLE 1 (if v then 1 else 0) := by
      simp [mkWriter, ByteWriter.writeBool, ByteWriter.writeInt8, ByteWriter.write,
        ByteWriter.toBuffer]
    have h8 := signed_roundtrip8 (if v then 1 else 0) (by cases v <;> norm_num)
      (by cases v <;> norm_num)
    rw [hb, ByteReader.readBool, ByteReader.readInt8,
      read_all _ le e 1 (by simp [intLE, length_uintLE])]
    simp only [pstep, h8]
    cases v <;> simp
  · intro le bs h
    rw [writeCString_toBuffer le none (.raw bs)]
    rw [readCString_step (mkReader (bs ++ [0]) le none) bs []
      (by simp [mkReader, ByteReader.rem]) (fun b hb => (h b hb).1)]
    simp [mkReader, decodeText]
  · intro le s h
    rw [writeCString_toBuffer le (some .utf8) (.txt s)]
    rw [readCString_step (mkReader (encodeText (some .utf8) s ++ [0]) le (some .utf8))
      (encodeText (some .utf8) s) []
      (by simp [mkReader, ByteReader.rem]) (utf8Encode_ne_zero s h)]
    simp [mkReader, decodeText, encodeText, utf8_roundtrip s]
  · intro le s h
    rw [writeCString_toBuffer le (some .latin1) (.txt s)]
    have hz : ∀ b ∈ encodeText (some .latin1) s, b ≠ 0 := by
      intro b hb
      simp only [encodeText, latin1Encode, List.mem_map] at hb
      obtain ⟨c, hc, rfl⟩ := hb
      have := h c hc
      omega
    rw [readCString_step (mkReader (encodeText (some .latin1) s ++ [0]) le (some .latin1))
      (encodeText (some .latin1) s) []
      (by simp [mkReader, ByteReader.rem]) hz]
    simp [mkReader, decodeText, encodeText,
      latin1_roundtrip s (fun c hc => (h c hc).2)]

/-- Witness for C5: the round-trip law applied at boundary values of
each width (unsigned maxima, signed minima, -1), at both booleans and at
concrete strings in each text configuration. -/
theorem claim_C5_witness :
    (ByteReader.readUint8 (mkReader ((mkWriter true (some .utf8)).writeUint8 255).toBuffer
      true (some .utf8))).1 = .ok 255 ∧
    (ByteReader.readInt8 (mkReader ((mkWriter true (some .utf8)).writeInt8 (-128)).toBuffer
      true (some .utf8))).1 = .ok (-128) ∧
    (ByteReader.readInt8 (mkReader ((mkWriter true (some .utf8)).writeInt8 (-1)).toBuffer
      true (some .utf8))).1 = .ok (-1) ∧
    (ByteReader.readUint16 (mkReader ((mkWriter true (some .utf8)).writeUint16 65535).toBuffer
      true (some .utf8))).1 = .ok 65535 ∧
    (ByteReader.readInt16 (mkReader ((mkWriter false none).writeInt16 (-32768)).toBuffer
      false none)).1 = .ok (-32768) ∧
    (ByteReader.readUint32 (mkReader
      ((mkWriter true (some .utf8)).writeUint32 4294967295).toBuffer
      true (some .utf8))).1 = .ok 4294967295 ∧
    (ByteReader.readInt32 (mkReader
      ((mkWriter true (some .utf8)).writeInt32 (-2147483648)).toBuffer
      true (some .utf8))).1 = .ok (-2147483648) ∧
    (ByteReader.readUint64 (mkReader
      ((mkWriter true (some .utf8)).writeUint64 18446744073709551615).toBuffer
      true (some .utf8))).1 = .ok 18446744073709551615 ∧
    (ByteReader.readInt64 (mkReader
      ((mkWriter true (some .utf8)).writeInt64 (-9223372036854775808)).toBuffer
      true (some .utf8))).1 = .ok (-9223372036854775808) ∧
    (ByteReader.readBool (mkReader ((mkWriter true (some .utf8)).writeBool true).toBuffer
      true (some .utf8))).1 = .ok true ∧
    (ByteReader.readCString (mkReader
      ((mkWriter true none).writeCString (.raw [1, 255])).toBuffer true none)).1 =
      .ok (.raw [1, 255]) ∧
    (ByteReader.readCString (mkReader
      ((mkWriter true (some .utf8)).writeCString (.txt "ok")).toBuffer true
      (some .utf8))).1 = .ok (.txt "ok") ∧
    (ByteReader.readCString (mkReader
      ((mkWriter true (some .latin1)).writeCString (.txt "ab")).toBuffer true
      (some .latin1))).1 = .ok (.txt "ab") := by
  refine ⟨?_, ?_, ?_, ?_, ?_, ?_, ?_, ?_, ?_, ?_, ?_, ?_, ?_⟩
  · exact claim_C5_codec_roundtrip.1 true (some .utf8) 255 (by norm_num)
  · exact claim_C5_codec_roundtrip.2.1 true (some .utf8) (-128) (by norm_num) (by norm_num)
  · exact claim_C5_codec_roundtrip.2.1 true (some .utf8) (-1) (by norm_num) (by norm_num)
  · exact claim_C5_codec_roundtrip.2.2.1 true (some .utf8) 65535 (by norm_num)
  · exact claim_C5_codec_roundtrip.2.2.2.1 false none (-32768) (by norm_num) (by norm_num)
  · exact claim_C5_codec_roundtrip.2.2.2.2.1 true (some .utf8) 4294967295 (by norm_num)
  · exact claim_C5_codec_roundtrip.2.2.2.2.2.1 true (some .utf8) (-2147483648)
      (by norm_num) (by norm_num)
  · exact claim_C5_codec_roundtrip.2.2.2.2.2.2.1 true (some .utf8) 18446744073709551615
      (by norm_num)
  · exact claim_C5_codec_roundtrip.2.2.2.2.2.2.2.1 true (some .utf8)
      (-9223372036854775808) (by norm_num) (by norm_num)
  · exact claim_C5_codec_roundtrip.2.2.2.2.2.2.2.2.1 true (some .utf8) true
  · exact claim_C5_codec_roundtrip.2.2.2.2.2.2.2.2.2.1 true [1, 255] (by decide)
  · exact claim_C5_codec_roundtrip.2.2.2.2.2.2.2.2.2.2.1 true "ok" (by decide)
  · exact claim_C5_codec_roundtrip.2.2.2.2.2.2.2.2.2.2.2 true "ab" (by decide)

/-- C10: when `ByteReader.read` fails with `BufferExhaustedError`, the
bounds check has fired before the cursor moved, so the reader state
after the failed call is exactly the state before it: same cursor, same
remaining bytes. -/
theorem claim_C10_failed_read_atomic (r : ByteReader) (size : Nat) (e : Err)
    (h : (r.read size).1 = .error e) :
    (r.read size).2 = r ∧ (r.read size).2.rem = r.rem ∧
      (r.read size).2.position = r.position := by
  by_cases hc : r.buffer.length < r.position + size
  · simp [ByteReader.read, hc]
  · simp [ByteReader.read, hc] at h

/-- Witness for C10 at a concrete input: reading 2 bytes from a 1-byte
buffer fails and leaves the reader untouched. -/
theorem claim_C10_witness :
    ((mkReader [7] true none).read 2).1 = .error .bufferExhausted ∧
      ((mkReader [7] true none).read 2).2 = mkReader [7] true none :=
  ⟨rfl, (claim_C10_failed_read_atomic (mkReader [7] true none) 2 .bufferExhausted rfl).1⟩

/-- Translation of src/types.ts `SourceInfo`: the modern info record;
TypeScript optional fields become `Option`, absent = `none`. -/
structure SourceInfo where
  protocol : Nat
  serverName : TextVal
  mapName : TextVal
  folder : TextVal
  game : TextVal
  appId : Nat
  playerCount : Nat
  maxPlayers : Nat
  botCount : Nat
  serverType : TextVal
  platform : TextVal
  passwordProtected : Bool
  vacEnabled : Bool
  version : TextVal
  edf : Nat
  ping : Nat
  port : Option Nat
  steamId : Option Nat
  stvPort : Option Nat
  stvName : Option TextVal
  keywords : Option TextVal
  gameId : Option Nat
deriving Repr, DecidableEq

/-- Translation of src/types.ts `GoldSrcInfo`: the legacy info record. -/
structure GoldSrcInfo where
  address : TextVal
  serverName : TextVal
  mapName : TextVal
  folder : TextVal
  game : TextVal
  playerCount : Nat
  maxPlayers : Nat
  protocol : Nat
  serverType : TextVal
  platform : TextVal
  passwordProtected : Bool
  isMod : Bool
  vacEnabled : Bool
  botCount : Nat
  ping : Nat
  modWebsite : Option TextVal
  modDownload : Option TextVal
  modVersion : Option Nat
  modSize : Option Nat
  multiplayerOnly : Option Bool
  usesCustomDll : Option Bool
deriving Repr, DecidableEq

/-- Union result type of an info query (src/types.ts `ServerInfo`). -/
inductive ServerInfo where
  | source (i : SourceInfo)
  | goldsrc (g : GoldSrcInfo)
deriving Repr, DecidableEq

/-- Lower-casing of a string, character by character (ASCII case map,
which agrees with the JavaScript `toLowerCase` on the single-byte
server-type and platform values this is applied to). -/
def strToLower (s : String) : String :=
  String.mk (s.data.map Char.toLower)

/-- Model of `(value as string).toLowerCase()` in `parseSource`: the cast
is compile-time only, so when the reader was configured with no encoding
the value is a `Buffer` at run time, which has no `toLowerCase` method,
and the call raises a `TypeError`. -/
def textToLower : TextVal → Except Err TextVal
  | .txt s => .ok (.txt (strToLower s))
  | .raw _ => .error .typeError

/-- One `if (edf & bit) { info.field = reader.readX() }` statement of
`parseSource`, with the record and reader threaded explicitly: skipped
when the bit is clear, otherwise the read's failure aborts the parse. -/
def condSet {β : Type} (p : Except Err SourceInfo × ByteReader) (cond : Bool)
    (rd : ByteReader → Except Err β × ByteReader)
    (set : SourceInfo → β → SourceInfo) : Except Err SourceInfo × ByteReader :=
  match p with
  | (.ok info, r) =>
    if cond then
      match rd r with
      | (.ok v, r2) => (.ok (set info v), r2)
      | (.error e, r2) => (.error e, r2)
    else (.ok info, r)
  | (.error e, r) => (.error e, r)

/-- Tail half of `InfoProtocol.parseSource`, from the extra-data-flags
byte on: the read of that byte with its local recovery of
`BufferExhaustedError` to 0, followed by the five optional fields gated
by bits 0x80, 0x10, 0x40, 0x20, 0x01 in that order. `mkInfo` builds the
record of the already-parsed fixed fields around the flags value. -/
def parseSourceEdf (r : ByteReader) (mkInfo : Nat → SourceInfo) :
    Except Err SourceInfo × ByteReader :=
  pstep (match r.readUint8 with
    | (.ok v, r1) => (.ok v, r1)
    | (.error .bufferExhausted, r1) => (.ok 0, r1)
    | (.error e, r1) => (.error e, r1)) fun edf r =>
  condSet (condSet (condSet (condSet (condSet (.ok (mkInfo edf), r)
    (edf &&& 0x80 != 0) ByteReader.readUint16
      (fun i v => { i with port := some v }))
    (edf &&& 0x10 != 0) ByteReader.readUint64
      (fun i v => { i with steamId := some v }))
    (edf &&& 0x40 != 0)
      (fun r => pstep r.readUint16 fun p r => pstep r.readCString fun n r =>
        (.ok (p, n), r))
      (fun i v => { i with stvPort := some v.1, stvName := some v.2 }))
    (edf &&& 0x20 != 0) ByteReader.readCString
      (fun i v => { i with keywords := some v }))
    (edf &&& 0x01 != 0) ByteReader.readUint64
      (fun i v => { i with gameId := some v })

/-- Translation of `InfoProtocol.parseSource` (src/protocols.ts lines
64-138): the fixed fields in order, then `parseSourceEdf` for the
extra-data-flags byte and the optional tail. -/
def parseSource (r : ByteReader) (ping : Nat) : Except Err SourceInfo × ByteReader :=
  pstep r.readUint8 fun protocol r =>
  pstep r.readCString fun serverName r =>
  pstep r.readCString fun mapName r =>
  pstep r.readCString fun folder r =>
  pstep r.readCString fun game r =>
  pstep r.readUint16 fun appId r =>
  pstep r.readUint8 fun playerCount r =>
  pstep r.readUint8 fun maxPlayers r =>
  pstep r.readUint8 fun botCount r =>
  pstep r.readChar fun serverTypeRaw r =>
  pstep (textToLower serverTypeRaw, r) fun serverType r =>
  pstep r.readChar fun platformRaw r =>
  pstep (textToLower platformRaw, r) fun platform0 r =>
  let platform := if platform0 = TextVal.txt "o" then TextVal.txt "m" else platform0
  pstep r.readBool fun passwordProtected r =>
  pstep r.readBool fun vacEnabled r =>
  pstep r.readCString fun version r =>
  parseSourceEdf r (fun edf =>
    { protocol := protocol, serverName := serverName, mapName := mapName,
      folder := folder, game := game, appId := appId, playerCount := playerCount,
      maxPlayers := maxPlayers, botCount := botCount, serverType := serverType,
      platform := platform, passwordProtected := passwordProtected,
      vacEnabled := vacEnabled, version := version, edf := edf, ping := ping,
      port := none, steamId := none, stvPort := none, stvName := none,
      keywords := none, gameId := none })

/-- Translation of `InfoProtocol.parseGoldSrc` (src/protocols.ts lines
140-187), including the conditional mod block (`isMod` set and more than
2 bytes remaining). -/
def parseGoldSrc (r : ByteReader) (ping : Nat) : Except Err GoldSrcInfo × ByteReader :=
  pstep r.readCString fun address r =>
  pstep r.readCString fun serverName r =>
  pstep r.readCString fun mapName r =>
  pstep r.readCString fun folder r =>
  pstep r.readCString fun game r =>
  pstep r.readUint8 fun playerCount r =>
  pstep r.readUint8 fun maxPlayers r =>
  pstep r.readUint8 fun protocol r =>
  pstep r.readChar fun serverType r =>
  pstep r.readChar fun platform r =>
  pstep r.readBool fun passwordProtected r =>
  pstep r.readBool fun isMod r =>
  let info : GoldSrcInfo :=
    { address := address, serverName := serverName, mapName := mapName,
      folder := folder, game := game, playerCount := playerCount,
      maxPlayers := maxPlayers, protocol := protocol, serverType := serverType,
      platform := platform, passwordProtected := passwordProtected,
      isMod := isMod, vacEnabled := false, botCount := 0, ping := ping,
      modWebsite := none, modDownload := none, modVersion := none,
      modSize := none, multiplayerOnly := none, usesCustomDll := none }
  pstep
    (if isMod ∧ 2 < r.peek.length then
      pstep r.readCString fun modWebsite r =>
      pstep r.readCString fun modDownload r =>
      pstep (r.read 1) fun _ r =>
      pstep r.readUint32 fun modVersion r =>
      pstep r.readUint32 fun modSize r =>
      pstep r.readBool fun multiplayerOnly r =>
      pstep r.readBool fun usesCustomDll r =>
      (.ok
        { info with
            modWebsite := some modWebsite
            modDownload := some modDownload
            modVersion := some modVersion
            modSize := some modSize
            multiplayerOnly := some multiplayerOnly
            usesCustomDll := some usesCustomDll },
        r)
    else (.ok info, r)) fun info r =>
  pstep r.readBool fun vacEnabled r =>
  pstep r.readUint8 fun botCount r =>
  (.ok { info with vacEnabled := vacEnabled, botCount := botCount }, r)

/-- Shared capability interface of the three query kinds
(src/protocols.ts `ProtocolHandler`); `deserializeResponse` takes the
reader, the response type byte and the measured ping. -/
structure ProtocolHandler (T : Type) where
  validateResponseType : Nat → Bool
  serializeRequest : Nat → List Nat
  deserializeResponse : ByteReader → Nat → Nat → Except Err T × ByteReader

/-- Wire constant `A2S_INFO_RESPONSE`. -/
def A2S_INFO_RESPONSE : Nat := 0x49

/-- Wire constant `A2S_INFO_RESPONSE_LEGACY`. -/
def A2S_INFO_RESPONSE_LEGACY : Nat := 0x6d

/-- Translation of the `InfoProtocol` class: validity predicate over the
two info response type bytes, the `0x54` request with the literal query
text (UTF-8) and an optional nonzero challenge, and response dispatch to
the modern or legacy parser. -/
def InfoProtocol : ProtocolHandler ServerInfo where
  validateResponseType t := t == A2S_INFO_RESPONSE || t == A2S_INFO_RESPONSE_LEGACY
  serializeRequest challenge :=
    0x54 :: (utf8Encode "Source Engine Query" ++ [0]) ++
      (if challenge ≠ 0 then uintLE 4 challenge else [])
  deserializeResponse r t ping :=
    if t = A2S_INFO_RESPONSE then
      match parseSource r ping with
      | (.ok i, r2) => (.ok (.source i), r2)
      | (.error e, r2) => (.error e, r2)
    else if t = A2S_INFO_RESPONSE_LEGACY then
      match parseGoldSrc r ping with
      | (.ok g, r2) => (.ok (.goldsrc g), r2)
      | (.error e, r2) => (.error e, r2)
    else (.error (.brokenMessage "Invalid info response type"), r)

/-- Wire constant: simple-response wrapper header `FF FF FF FF`. -/
def HEADER_SIMPLE : List Nat := [0xff, 0xff, 0xff, 0xff]

/-- Wire constant: multi-datagram wrapper header `FE FF FF FF`. -/
def HEADER_MULTI : List Nat := [0xfe, 0xff, 0xff, 0xff]

/-- Wire constant: challenge-response type byte. -/
def A2S_CHALLENGE_RESPONSE : Nat := 0x41

/-- Translation of src/fragment.ts `A2SFragment`. -/
structure A2SFragment where
  messageId : Nat
  fragmentCount : Nat
  fragmentId : Nat
  mtu : Nat
  decompressedSize : Nat
  crc : Nat
  payload : List Nat
deriving Repr, DecidableEq

/-- Translation of the `isCompressed` getter:
`Boolean(this.messageId & (1 << 15))`. -/
def A2SFragment.isCompressed (f : A2SFragment) : Bool :=
  f.messageId &&& (1 <<< 15) != 0

/-- Translation of `decodeFragment`. The decompressor (`zlib.inflateSync`
in the source) is an external collaborator, passed in as a function that
returns `none` exactly when the library call would throw; on that
failure the raw still-compressed bytes are kept as the payload. -/
def decodeFragment (inflate : List Nat → Option (List Nat)) (data : List Nat) :
    Except Err A2SFragment :=
  (pstep (mkReader data true (some .utf8)).readUint32 fun messageId r =>
   pstep r.readUint8 fun fragmentCount r =>
   pstep r.readUint8 fun fragmentId r =>
   pstep r.readUint16 fun mtu r =>
   let frag : A2SFragment :=
     ⟨messageId, fragmentCount, fragmentId, mtu, 0, 0, []⟩
   if frag.isCompressed then
     pstep r.readUint32 fun decompressedSize r =>
     pstep r.readUint32 fun crc r =>
     let compressedData := r.peek
     let payload :=
       match inflate compressedData with
       | some p => p
       | none => compressedData
     (.ok
       { frag with
           decompressedSize := decompressedSize
           crc := crc
           payload := payload },
       r)
   else
     (.ok { frag with payload := r.peek }, r)).1

/-- Comparator order of `handleMultiPacket`'s sort:
`(a, b) => a.fragmentId - b.fragmentId`, ascending. -/
def fragLE (a b : A2SFragment) : Prop :=
  a.fragmentId ≤ b.fragmentId

instance : DecidableRel fragLE := fun a b => Nat.decLe a.fragmentId b.fragmentId

instance : IsTotal A2SFragment fragLE :=
  ⟨fun a b => Nat.le_total a.fragmentId b.fragmentId⟩

instance : IsTrans A2SFragment fragLE :=
  ⟨fun _ _ _ h1 h2 => Nat.le_trans h1 h2⟩

/-- Strict version of `fragLE`, used to state that a sorted arrangement
of fragments with pairwise distinct ids is unique. -/
def fragLT (a b : A2SFragment) : Prop :=
  a.fragmentId < b.fragmentId

instance : IsAntisymm A2SFragment fragLT :=
  ⟨fun _ _ h1 h2 => absurd (Nat.lt_trans h1 h2) (Nat.lt_irrefl _)⟩

/-- Model of `Array.prototype.sort` with comparator
`(a, b) => a.fragmentId - b.fragmentId`: a stable ascending sort (any
stable sort realizes the ECMAScript specification for a consistent
comparator). -/
def sortFragments (l : List A2SFragment) : List A2SFragment :=
  List.insertionSort fragLE l

/-- Strip of the simple-response wrapper when the reassembled bytes start
with it (`reassembled.subarray(0, 4).equals(HEADER_SIMPLE)`). -/
def stripSimpleHeader (bytes : List Nat) : List Nat :=
  if bytes.take 4 = HEADER_SIMPLE then bytes.drop 4 else bytes

/-- Translation of `A2SSocket.handleMultiPacket`, at the fragment level
(after `decodeFragment`): push the fragment, and once the pending set
reaches the incoming fragment's declared count, sort by `fragmentId`,
concatenate payloads, strip a leading simple wrapper, clear the set and
emit; otherwise keep accumulating. -/
def handleMultiPacket (st : List A2SFragment) (frag : A2SFragment) :
    List A2SFragment × Option (List Nat) :=
  let buf := st ++ [frag]
  if frag.fragmentCount ≤ buf.length then
    ([], some (stripSimpleHeader (((sortFragments buf).map A2SFragment.payload).flatten)))
  else (buf, none)

/-- One arrival processed against the running state: pending set plus the
messages emitted so far. -/
def feedStep (acc : List A2SFragment × List (List Nat)) (frag : A2SFragment) :
    List A2SFragment × List (List Nat) :=
  match handleMultiPacket acc.1 frag with
  | (st, some m) => (st, acc.2 ++ [m])
  | (st, none) => (st, acc.2)

/-- Run of the assembler over a sequence of arriving fragments from the
empty pending set: final pending set and all emitted messages in order. -/
def feedFragments (l : List A2SFragment) : List A2SFragment × List (List Nat) :=
  l.foldl feedStep ([], [])

/-- Modelled from the spec: src/defaults.ts is not under src/ (only its
unit test is); the spec fixes the default maximum number of challenge
retries at 5 and the test asserts the same value. -/
def DEFAULT_RETRIES : Nat := 5

/-- Close-tracking state of the client: the `closed` flag of `A2SClient`
plus a count of how many times the underlying socket was closed. -/
structure ClientState where
  closed : Bool
  closeCount : Nat
deriving Repr, DecidableEq

/-- Translation of `A2SClient.close`: idempotent. -/
def clientClose (st : ClientState) : ClientState :=
  if st.closed then st else ⟨true, st.closeCount + 1⟩

/-- Translation of `A2SClient.request` (src/a2s.ts): one transport
request per call, challenge detection on the first response byte,
recursion with the new challenge while the retry counter is below the
maximum, and socket closure guarded by `retries === 0`. The transport is
modelled by `resp`, the response delivered to the `k`-th request; `k`
also counts the requests sent. Wall-clock latency is external: `ping` is
the value the first exchange would measure, and retry legs report 0 as
in the source. The maximum is `DEFAULT_RETRIES` in the source; it is
taken as a parameter here and instantiated below. -/
def requestAux {T : Type} (proto : ProtocolHandler T)
    (resp : Nat → List Nat → List Nat)
    (enc : Option Enc) (ping : Nat) (maxRetries : Nat) (st : ClientState)
    (k challenge retries : Nat) : Except Err T × Nat × ClientState :=
  let responseData := resp k (proto.serializeRequest challenge)
  let k2 := k + 1
  match (mkReader responseData true enc).readUint8 with
  | (.error e, _) => (.error e, k2, st)
  | (.ok responseType, r1) =>
    if responseType = A2S_CHALLENGE_RESPONSE then
      if maxRetries ≤ retries then
        (.error (.brokenMessage "Server keeps sending challenge responses"), k2,
          if retries = 0 then clientClose st else st)
      else
        match r1.readUint32 with
        | (.error e, _) => (.error e, k2, st)
        | (.ok newChallenge, _) =>
          requestAux proto resp enc ping maxRetries st k2 newChallenge (retries + 1)
    else if ¬ proto.validateResponseType responseType then
      (.error (.brokenMessage "Invalid response type"), k2,
        if retries = 0 then clientClose st else st)
    else
      match proto.deserializeResponse r1 responseType
          (if retries = 0 then ping else 0) with
      | (.ok result, _) => (.ok result, k2, if retries = 0 then clientClose st else st)
      | (.error e, _) => (.error e, k2, st)
termination_by maxRetries - retries
decreasing_by omega

/-- Entry point of the retry sequence: fresh client (socket open, never
closed), challenge 0, retry counter 0, no requests sent yet, and the
source's `DEFAULT_RETRIES` bound. -/
def A2SClient.request {T : Type} (proto : ProtocolHandler T)
    (resp : Nat → List Nat → List Nat)
    (enc : Option Enc) (ping : Nat) : Except Err T × Nat × ClientState :=
  requestAux proto resp enc ping DEFAULT_RETRIES ⟨false, 0⟩ 0 0 0

lemma rem_mk (buf : List Nat) (le : Bool) (e : Option Enc) :
    (mkReader buf le e).rem = buf := by
  simp [mkReader, ByteReader.rem]

lemma wf_mk (buf : List Nat) (le : Bool) (e : Option Enc) :
    (mkReader buf le e).position ≤ (mkReader buf le e).buffer.length := by
  simp [mkReader]

lemma rem_adv (r : ByteReader) (k : Nat) : (r.adv k).rem = r.rem.drop k := by
  simp [ByteReader.adv, ByteReader.rem, List.drop_drop, Nat.add_comm]

lemma wf_adv (r : ByteReader) (k : Nat) (hw : r.position ≤ r.buffer.length)
    (hk : k ≤ r.rem.length) :
    (r.adv k).position ≤ (r.adv k).buffer.length := by
  simp only [ByteReader.rem, List.length_drop] at hk
  simp [ByteReader.adv]
  omega

lemma encoding_adv (r : ByteReader) (k : Nat) : (r.adv k).encoding = r.encoding := rfl

lemma littleEndian_adv (r : ByteReader) (k : Nat) :
    (r.adv k).littleEndian = r.littleEndian := rfl

lemma read_step (r : ByteReader) (k : Nat) (xs rest : List Nat)
    (hw : r.position ≤ r.buffer.length) (h : r.rem = xs ++ rest)
    (hx : xs.length = k) :
    r.read k = (.ok xs, r.adv k) := by
  have hlen : r.rem.length = r.buffer.length - r.position := by
    simp [ByteReader.rem]
  have hcond : ¬ (r.buffer.length < r.position + k) := by
    rw [h] at hlen
    simp only [List.length_append, hx] at hlen
    omega
  rw [ByteReader.read, if_neg hcond]
  have : r.buffer.drop r.position = xs ++ rest := h
  rw [this, ← hx, List.take_left]

lemma readUint8_step (r : ByteReader) (b : Nat) (rest : List Nat)
    (hw : r.position ≤ r.buffer.length) (h : r.rem = b :: rest) :
    r.readUint8 = (.ok b, r.adv 1) := by
  rw [ByteReader.readUint8, read_step r 1 [b] rest hw (by simpa using h) rfl]
  simp [pstep, leVal]

lemma readUint16_step (r : ByteReader) (v : Nat) (rest : List Nat)
    (hw : r.position ≤ r.buffer.length) (hle : r.littleEndian = true)
    (h : r.rem = uintLE 2 v ++ rest) (hv : v < 65536) :
    r.readUint16 = (.ok v, r.adv 2) := by
  rw [ByteReader.readUint16, read_step r 2 (uintLE 2 v) rest hw h (length_uintLE 2 v)]
  simp [pstep, littleEndian_adv, hle, leVal_uintLE 2 v (by norm_num; omega)]

lemma readUint32_step (r : ByteReader) (v : Nat) (rest : List Nat)
    (hw : r.position ≤ r.buffer.length) (hle : r.littleEndian = true)
    (h : r.rem = uintLE 4 v ++ rest) (hv : v < 4294967296) :
    r.readUint32 = (.ok v, r.adv 4) := by
  rw [ByteReader.readUint32, read_step r 4 (uintLE 4 v) rest hw h (length_uintLE 4 v)]
  simp [pstep, littleEndian_adv, hle, leVal_uintLE 4 v (by norm_num; omega)]

lemma readUint64_step (r : ByteReader) (v : Nat) (rest : List Nat)
    (hw : r.position ≤ r.buffer.length) (hle : r.littleEndian = true)
    (h : r.rem = uintLE 8 v ++ rest) (hv : v < 18446744073709551616) :
    r.readUint64 = (.ok v, r.adv 8) := by
  rw [ByteReader.readUint64, read_step r 8 (uintLE 8 v) rest hw h (length_uintLE 8 v)]
  simp [pstep, littleEndian_adv, hle, leVal_uintLE 8 v (by norm_num; omega)]

lemma readBool_step (r : ByteReader) (v : Bool) (rest : List Nat)
    (hw : r.position ≤ r.buffer.length)
    (h : r.rem = (if v then 1 else 0) :: rest) :
    r.readBool = (.ok v, r.adv 1) := by
  rw [ByteReader.readBool, ByteReader.readInt8,
    read_step r 1 [if v then 1 else 0] rest hw (by simpa using h) rfl]
  cases v <;> simp [pstep, leVal, sintOf]

lemma readChar_step (r : ByteReader) (b : Nat) (rest : List Nat)
    (hw : r.position ≤ r.buffer.length) (h : r.rem = b :: rest) :
    r.readChar = (.ok (decodeText r.encoding [b]), r.adv 1) := by
  rw [ByteReader.readChar, read_step r 1 [b] rest hw (by simpa using h) rfl]
  simp [pstep, encoding_adv]

lemma readUint32_any (r : ByteReader) (hw : r.position ≤ r.buffer.length)
    (h : 4 ≤ r.rem.length) :
    ∃ v, r.readUint32 = (.ok v, r.adv 4) := by
  obtain ⟨b1, l1, h1⟩ : ∃ b l, r.rem = b :: l := by
    cases hr : r.rem with
    | nil => rw [hr] at h; simp at h
    | cons b l => exact ⟨b, l, rfl⟩
  have hl1 : 3 ≤ l1.length := by
    have := h
    rw [h1] at this
    simpa using this
  obtain ⟨b2, l2, h2⟩ : ∃ b l, l1 = b :: l := by
    cases hr : l1 with
    | nil => rw [hr] at hl1; simp at hl1
    | cons b l => exact ⟨b, l, rfl⟩
  have hl2 : 2 ≤ l2.length := by
    have := hl1
    rw [h2] at this
    simpa using this
  obtain ⟨b3, l3, h3⟩ : ∃ b l, l2 = b :: l := by
    cases hr : l2 with
    | nil => rw [hr] at hl2; simp at hl2
    | cons b l => exact ⟨b, l, rfl⟩
  have hl3 : 1 ≤ l3.length := by
    have := hl2
    rw [h3] at this
    simpa using this
  obtain ⟨b4, l4, h4⟩ : ∃ b l, l3 = b :: l := by
    cases hr : l3 with
    | nil => rw [hr] at hl3; simp at hl3
    | cons b l => exact ⟨b, l, rfl⟩
  refine ⟨if r.littleEndian then leVal [b1, b2, b3, b4]
    else leVal [b4, b3, b2, b1], ?_⟩
  rw [ByteReader.readUint32,
    read_step r 4 [b1, b2, b3, b4] l4 hw (by simp [h1, h2, h3, h4]) rfl]
  simp [pstep, littleEndian_adv]

lemma requestAux_challenge {T : Type} (proto : ProtocolHandler T)
    (resp : Nat → List Nat → List Nat) (enc : Option Enc) (ping : Nat)
    (maxRetries : Nat) (st : ClientState)
    (h : ∀ k p, ∃ tail, resp k p = 0x41 :: tail ∧ 4 ≤ tail.length) :
    ∀ d retries k challenge, maxRetries - retries = d → retries ≤ maxRetries →
      requestAux proto resp enc ping maxRetries st k challenge retries =
        (.error (.brokenMessage "Server keeps sending challenge responses"),
          k + d + 1, if maxRetries = 0 then clientClose st else st) := by
  intro d
  induction d with
  | zero =>
    intro retries k challenge hd hle
    obtain ⟨tail, hresp, hlen⟩ := h k (proto.serializeRequest challenge)
    have heq : retries = maxRetries := by omega
    subst heq
    rw [requestAux]
    simp only [hresp]
    rw [readUint8_step (mkReader (0x41 :: tail) true enc) 0x41 tail
      (wf_mk _ _ _) (by rw [rem_mk])]
    simp [A2S_CHALLENGE_RESPONSE]
  | succ d ih =>
    intro retries k challenge hd hle
    obtain ⟨tail, hresp, hlen⟩ := h k (proto.serializeRequest challenge)
    have hlt : ¬ (maxRetries ≤ retries) := by omega
    rw [requestAux]
    simp only [hresp]
    rw [readUint8_step (mkReader (0x41 :: tail) true enc) 0x41 tail
      (wf_mk _ _ _) (by rw [rem_mk])]
    obtain ⟨v, hv32⟩ := readUint32_any ((mkReader (0x41 :: tail) true enc).adv 1)
      (wf_adv _ 1 (wf_mk _ _ _) (by rw [rem_mk]; simp))
      (by rw [rem_adv, rem_mk]; simpa using hlen)
    simp only [A2S_CHALLENGE_RESPONSE, if_pos rfl, hlt, if_false, hv32]
    rw [ih (retries + 1) (k + 1) v (by omega) (by omega)]
    have harith : k + 1 + d + 1 = k + (d + 1) + 1 := by omega
    rw [harith]
    simp

/-- C1: against a server that answers every request with a well-formed
challenge response (type byte 0x41 and a 32-bit challenge), the retry
sequence sends exactly `maxRetries + 1` requests through the Transport
and then fails with the `BrokenMessageError` "Server keeps sending
challenge responses"; with the source's `DEFAULT_RETRIES = 5`, that is
exactly 6 requests. -/
theorem claim_C1_challenge_retry_bound {T : Type} (proto : ProtocolHandler T)
    (resp : Nat → List Nat → List Nat) (enc : Option Enc) (ping : Nat)
    (maxRetries : Nat)
    (h : ∀ k p, ∃ tail, resp k p = 0x41 :: tail ∧ 4 ≤ tail.length) :
    (requestAux proto resp enc ping maxRetries ⟨false, 0⟩ 0 0 0).2.1 =
      maxRetries + 1 ∧
    (requestAux proto resp enc ping maxRetries ⟨false, 0⟩ 0 0 0).1 =
      .error (.brokenMessage "Server keeps sending challenge responses") ∧
    (A2SClient.request proto resp enc ping).2.1 = DEFAULT_RETRIES + 1 ∧
    (A2SClient.request proto resp enc ping).2.1 = 6 := by
  have hrun := requestAux_challenge proto resp enc ping maxRetries ⟨false, 0⟩ h
    maxRetries 0 0 0 (by omega) (by omega)
  have hdef := requestAux_challenge proto resp enc ping DEFAULT_RETRIES ⟨false, 0⟩ h
    DEFAULT_RETRIES 0 0 0 (by omega) (by omega)
  refine ⟨?_, ?_, ?_, ?_⟩
  · rw [hrun]
    simp
  · rw [hrun]
  · rw [A2SClient.request, hdef]
    simp
  · rw [A2SClient.request, hdef]
    simp [DEFAULT_RETRIES]

/-- Witness for C1: a concrete info query against a server that always
sends `41 01 00 00 00` costs exactly 6 transport requests before the
failure. -/
theorem claim_C1_witness :
    (A2SClient.request InfoProtocol (fun _ _ => [0x41, 1, 0, 0, 0])
      (some .utf8) 0).2.1 = 6 ∧
    (A2SClient.request InfoProtocol (fun _ _ => [0x41, 1, 0, 0, 0])
      (some .utf8) 0).1 =
      .error (.brokenMessage "Server keeps sending challenge responses") := by
  have h := claim_C1_challenge_retry_bound InfoProtocol
    (fun _ _ => [0x41, 1, 0, 0, 0]) (some .utf8) 0 5
    (fun _ _ => ⟨[1, 0, 0, 0], rfl, by norm_num⟩)
  exact ⟨h.2.2.2, by rw [A2SClient.request] at h ⊢; exact h.2.1⟩

/-- Counterexample to C2 as stated: at the concrete always-challenge
server below, the retry sequence raises the `BrokenMessageError`, yet
the Transport is closed zero times, not once — the `retries === 0` guard
in front of the close is false when the bound is reached, and no outer
frame of the recursion closes either. -/
theorem claim_C2_counterexample :
    (A2SClient.request InfoProtocol (fun _ _ => [0x41, 1, 0, 0, 0])
      (some .utf8) 0).1 =
      .error (.brokenMessage "Server keeps sending challenge responses") ∧
    (A2SClient.request InfoProtocol (fun _ _ => [0x41, 1, 0, 0, 0])
      (some .utf8) 0).2.2.closeCount = 0 ∧
    (A2SClient.request InfoProtocol (fun _ _ => [0x41, 1, 0, 0, 0])
      (some .utf8) 0).2.2.closed = false := by
  have h := requestAux_challenge InfoProtocol (fun _ _ => [0x41, 1, 0, 0, 0])
    (some .utf8) 0 DEFAULT_RETRIES ⟨false, 0⟩
    (fun _ _ => ⟨[1, 0, 0, 0], rfl, by norm_num⟩) DEFAULT_RETRIES 0 0 0
    (by omega) (by omega)
  rw [A2SClient.request, h]
  refine ⟨rfl, ?_, ?_⟩ <;> simp [DEFAULT_RETRIES]

/-- C2 amended: when the retry counter reaches the configured maximum
(any positive maximum, in particular the default 5), the Client raises
the `BrokenMessageError` but does not close the Transport at all — the
close call is guarded by `retries === 0`, which is false at the
exhaustion point, and intermediate recursive steps never close — so the
client state is returned exactly as it was. -/
theorem claim_C2_no_close_on_retry_exhaustion {T : Type}
    (proto : ProtocolHandler T) (resp : Nat → List Nat → List Nat)
    (enc : Option Enc) (ping : Nat) (maxRetries : Nat) (st : ClientState)
    (h : ∀ k p, ∃ tail, resp k p = 0x41 :: tail ∧ 4 ≤ tail.length)
    (hpos : 0 < maxRetries) :
    (requestAux proto resp enc ping maxRetries st 0 0 0).1 =
      .error (.brokenMessage "Server keeps sending challenge responses") ∧
    (requestAux proto resp enc ping maxRetries st 0 0 0).2.2 = st := by
  have hrun := requestAux_challenge proto resp enc ping maxRetries st h
    maxRetries 0 0 0 (by omega) (by omega)
  rw [hrun]
  have : ¬ (maxRetries = 0) := by omega
  simp [this]

/-- Witness for the amended C2: the concrete run of the counterexample,
obtained from the amended theorem, leaves the fresh client state
untouched. -/
theorem claim_C2_witness :
    (requestAux InfoProtocol (fun _ _ => [0x41, 1, 0, 0, 0]) (some .utf8) 0
      DEFAULT_RETRIES ⟨false, 0⟩ 0 0 0).2.2 = (⟨false, 0⟩ : ClientState) :=
  (claim_C2_no_close_on_retry_exhaustion InfoProtocol
    (fun _ _ => [0x41, 1, 0, 0, 0]) (some .utf8) 0 DEFAULT_RETRIES ⟨false, 0⟩
    (fun _ _ => ⟨[1, 0, 0, 0], rfl, by norm_num⟩) (by simp [DEFAULT_RETRIES])).2

lemma feed_below (n : Nat) :
    ∀ (l st : List A2SFragment) (outs : List (List Nat)),
      (∀ f ∈ l, f.fragmentCount = n) → st.length + l.length < n →
      l.foldl feedStep (st, outs) = (st ++ l, outs) := by
  intro l
  induction l with
  | nil => intro st outs _ _; simp
  | cons f l ih =>
    intro st outs hc hlen
    have hf : f.fragmentCount = n := hc f (by simp)
    have hstep : feedStep (st, outs) f = (st ++ [f], outs) := by
      have hno : ¬ (f.fragmentCount ≤ st.length + 1) := by
        simp only [List.length_cons] at hlen
        omega
      simp [feedStep, handleMultiPacket, hno]
    rw [List.foldl_cons, hstep,
      ih (st ++ [f]) outs (fun g hg => hc g (by simp [hg])) (by simp at hlen ⊢; omega)]
    simp

lemma sortFragments_perm (l : List A2SFragment) : (sortFragments l).Perm l :=
  List.perm_insertionSort fragLE l

lemma sortFragments_eq_of_perm (l1 l2 : List A2SFragment) (hperm : l1.Perm l2)
    (hnodup : (l2.map A2SFragment.fragmentId).Nodup) :
    sortFragments l1 = sortFragments l2 := by
  have hs1 : List.Sorted fragLE (sortFragments l1) :=
    List.sorted_insertionSort fragLE l1
  have hs2 : List.Sorted fragLE (sortFragments l2) :=
    List.sorted_insertionSort fragLE l2
  have hp : (sortFragments l1).Perm (sortFragments l2) :=
    ((sortFragments_perm l1).trans hperm).trans (sortFragments_perm l2).symm
  have hkey : ∀ (m : List A2SFragment), m.Perm l2 →
      (m.map A2SFragment.fragmentId).Nodup :=
    fun m hm => ((hm.map A2SFragment.fragmentId).nodup_iff).2 hnodup
  have hstrict : ∀ (m : List A2SFragment), List.Sorted fragLE m →
      (m.map A2SFragment.fragmentId).Nodup → List.Sorted fragLT m := by
    intro m hs hn
    have hne : m.Pairwise (fun a b => a.fragmentId ≠ b.fragmentId) :=
      (List.pairwise_map).1 hn
    exact (hs.and hne).imp (fun h => Nat.lt_of_le_of_ne h.1 h.2)
  exact List.eq_of_perm_of_sorted hp
    (hstrict _ hs1 (hkey _ ((sortFragments_perm l1).trans hperm)))
    (hstrict _ hs2 (hkey _ (sortFragments_perm l2)))

/-- C3: for a set of fragments of one logical message (shared
`fragmentCount` equal to the set size, pairwise distinct `fragmentId`),
the assembler emits nothing while fewer than `fragmentCount` fragments
have arrived, and on the arrival that reaches the count it emits exactly
the concatenation of the payloads ordered by `fragmentId` ascending
(with a leading simple-response wrapper stripped when present) — the
same value for every arrival order, since the right-hand side only
depends on the fragment set. -/
theorem claim_C3_reassembly_count_gated_order_independent
    (frags l : List A2SFragment) (n : Nat)
    (hn : frags.length = n) (hpos : 0 < n)
    (hc : ∀ f ∈ frags, f.fragmentCount = n)
    (hnodup : (frags.map A2SFragment.fragmentId).Nodup)
    (hperm : l.Perm frags) :
    (feedFragments l).2 =
      [stripSimpleHeader (((sortFragments frags).map A2SFragment.payload).flatten)] ∧
    (feedFragments l).1 = [] ∧
    (∀ p q, l = p ++ q → q ≠ [] → (feedFragments p).2 = []) := by
  have hlen : l.length = n := by rw [hperm.length_eq, hn]
  have hcl : ∀ f ∈ l, f.fragmentCount = n := fun f hf => hc f (hperm.mem_iff.1 hf)
  have hpre : ∀ p q, l = p ++ q → q ≠ [] → feedFragments p = (p, []) := by
    intro p q hpq hq
    have hplen : p.length < n := by
      have : p.length + q.length = n := by
        rw [← List.length_append, ← hpq, hlen]
      have : q.length ≠ 0 := fun h => hq (List.length_eq_zero.1 h)
      omega
    exact feed_below n p [] [] (fun f hf => hcl f (by rw [hpq]; simp [hf]))
      (by simpa using hplen)
  obtain hnil | ⟨l2, f, hcat⟩ := l.eq_nil_or_concat
  · subst hnil
    simp at hlen
    omega
  · rw [List.concat_eq_append] at hcat
    subst hcat
    have hl2 : feedFragments l2 = (l2, []) := hpre l2 [f] rfl (by simp)
    have hl2len : l2.length + 1 = n := by
      simpa using hlen
    have hcount : f.fragmentCount ≤ l2.length + 1 := by
      have : f.fragmentCount = n := hcl f (by simp)
      omega
    have hfeed : feedFragments (l2 ++ [f]) =
        ([], [stripSimpleHeader
          (((sortFragments (l2 ++ [f])).map A2SFragment.payload).flatten)]) := by
      rw [feedFragments, List.foldl_append]
      rw [show l2.foldl feedStep ([], []) = feedFragments l2 from rfl, hl2]
      simp [feedStep, handleMultiPacket, hcount]
    have hsort : sortFragments (l2 ++ [f]) = sortFragments frags :=
      sortFragments_eq_of_perm _ _ hperm hnodup
    rw [hfeed, hsort]
    refine ⟨rfl, rfl, ?_⟩
    intro p q hpq hq
    rw [hpre p q hpq hq]

/-- Witness for C3: the two fragments of message 7 delivered in reverse
order emit exactly the in-order concatenation, and the one-fragment
proper prefix emits nothing. -/
theorem claim_C3_witness :
    (feedFragments [⟨7, 2, 1, 1200, 0, 0, [12]⟩, ⟨7, 2, 0, 1200, 0, 0, [10, 11]⟩]).2 =
      [[10, 11, 12]] ∧
    (feedFragments [⟨7, 2, 1, 1200, 0, 0, [12]⟩]).2 = [] := by
  have h := claim_C3_reassembly_count_gated_order_independent
    [⟨7, 2, 0, 1200, 0, 0, [10, 11]⟩, ⟨7, 2, 1, 1200, 0, 0, [12]⟩]
    [⟨7, 2, 1, 1200, 0, 0, [12]⟩, ⟨7, 2, 0, 1200, 0, 0, [10, 11]⟩]
    2 rfl (by norm_num) (by decide) (by decide) (by decide)
  refine ⟨?_, ?_⟩
  · rw [h.1]
    rfl
  · exact h.2.2 [⟨7, 2, 1, 1200, 0, 0, [12]⟩] [⟨7, 2, 0, 1200, 0, 0, [10, 11]⟩]
      rfl (by simp)

/-- Counterexample to C4 as stated: `handleMultiPacket` never inspects
`messageId`. With a fragment of message 1 pending (declared count 2), an
incoming fragment of the different message 2 is appended rather than
discarded, reaches the count, and triggers an assembly that interleaves
payloads of the two messages. -/
theorem claim_C4_counterexample :
    (handleMultiPacket [⟨1, 2, 0, 1200, 0, 0, [1]⟩] ⟨2, 2, 1, 1200, 0, 0, [2]⟩).2 =
      some [1, 2] ∧
    (handleMultiPacket [⟨1, 2, 0, 1200, 0, 0, [1]⟩] ⟨2, 2, 1, 1200, 0, 0, [2]⟩).1 =
      [] := by
  constructor <;> rfl

/-- C4 amended: an incoming fragment whose `messageId` differs from every
pending fragment's is still appended to the pending set (below the count)
or included in the assembly it triggers (at the count): no discard by
message id exists, so fragments of a different, older message can
contribute to and prematurely trigger the assembly of the current
message. -/
theorem claim_C4_mismatched_fragment_not_discarded
    (st : List A2SFragment) (f : A2SFragment)
    (_mismatch : ∀ g ∈ st, g.messageId ≠ f.messageId) :
    (st.length + 1 < f.fragmentCount → handleMultiPacket st f = (st ++ [f], none)) ∧
    (f.fragmentCount ≤ st.length + 1 →
      (handleMultiPacket st f).2 =
        some (stripSimpleHeader
          (((sortFragments (st ++ [f])).map A2SFragment.payload).flatten))) := by
  constructor
  · intro hlt
    have hno : ¬ (f.fragmentCount ≤ st.length + 1) := by omega
    simp [handleMultiPacket, hno]
  · intro hle
    simp [handleMultiPacket, hle]

/-- Witness for the amended C4: a mismatched-id fragment below the count
is appended, and one at the count triggers assembly. -/
theorem claim_C4_witness :
    handleMultiPacket [⟨1, 3, 0, 1200, 0, 0, [1]⟩] ⟨2, 3, 1, 1200, 0, 0, [2]⟩ =
      ([⟨1, 3, 0, 1200, 0, 0, [1]⟩, ⟨2, 3, 1, 1200, 0, 0, [2]⟩], none) ∧
    (handleMultiPacket [⟨1, 2, 0, 1200, 0, 0, [1]⟩] ⟨2, 2, 1, 1200, 0, 0, [2]⟩).2 =
      some (stripSimpleHeader
        (((sortFragments ([⟨1, 2, 0, 1200, 0, 0, [1]⟩] ++ [⟨2, 2, 1, 1200, 0, 0, [2]⟩])).map
          A2SFragment.payload).flatten)) :=
  ⟨(claim_C4_mismatched_fragment_not_discarded [⟨1, 3, 0, 1200, 0, 0, [1]⟩]
      ⟨2, 3, 1, 1200, 0, 0, [2]⟩ (by decide)).1 (by norm_num),
   (claim_C4_mismatched_fragment_not_discarded [⟨1, 2, 0, 1200, 0, 0, [1]⟩]
      ⟨2, 2, 1, 1200, 0, 0, [2]⟩ (by decide)).2 (by norm_num)⟩

lemma drop_seg (seg rest : List Nat) (k : Nat) (hk : seg.length = k) :
    (seg ++ rest).drop k = rest := by
  rw [← hk, List.drop_left]

lemma pstep_ok {α β : Type} (a : α) (r : ByteReader)
    (f : α → ByteReader → Except Err β × ByteReader) :
    pstep (.ok a, r) f = f a r := rfl

lemma chain_u8 (r : ByteReader) (b : Nat) (rest : List Nat)
    (hw : r.position ≤ r.buffer.length) (h : r.rem = b :: rest) :
    r.readUint8 = (.ok b, r.adv 1) ∧ (r.adv 1).rem = rest ∧
      (r.adv 1).position ≤ (r.adv 1).buffer.length ∧
      (r.adv 1).littleEndian = r.littleEndian ∧ (r.adv 1).encoding = r.encoding :=
  ⟨readUint8_step r b rest hw h,
   by rw [rem_adv, h]; rfl,
   wf_adv r 1 hw (by rw [h]; simp),
   rfl, rfl⟩

lemma chain_u16 (r : ByteReader) (v : Nat) (rest : List Nat)
    (hw : r.position ≤ r.buffer.length) (hle : r.littleEndian = true)
    (h : r.rem = uintLE 2 v ++ rest) (hv : v < 65536) :
    r.readUint16 = (.ok v, r.adv 2) ∧ (r.adv 2).rem = rest ∧
      (r.adv 2).position ≤ (r.adv 2).buffer.length ∧
      (r.adv 2).littleEndian = r.littleEndian ∧ (r.adv 2).encoding = r.encoding :=
  ⟨readUint16_step r v rest hw hle h hv,
   by rw [rem_adv, h, drop_seg _ _ 2 (length_uintLE 2 v)],
   wf_adv r 2 hw (by rw [h]; simp [length_uintLE]),
   rfl, rfl⟩

lemma chain_u32 (r : ByteReader) (v : Nat) (rest : List Nat)
    (hw : r.position ≤ r.buffer.length) (hle : r.littleEndian = true)
    (h : r.rem = uintLE 4 v ++ rest) (hv : v < 4294967296) :
    r.readUint32 = (.ok v, r.adv 4) ∧ (r.adv 4).rem = rest ∧
      (r.adv 4).position ≤ (r.adv 4).buffer.length ∧
      (r.adv 4).littleEndian = r.littleEndian ∧ (r.adv 4).encoding = r.encoding :=
  ⟨readUint32_step r v rest hw hle h hv,
   by rw [rem_adv, h, drop_seg _ _ 4 (length_uintLE 4 v)],
   wf_adv r 4 hw (by rw [h]; simp [length_uintLE]),
   rfl, rfl⟩

lemma chain_u64 (r : ByteReader) (v : Nat) (rest : List Nat)
    (hw : r.position ≤ r.buffer.length) (hle : r.littleEndian = true)
    (h : r.rem = uintLE 8 v ++ rest) (hv : v < 18446744073709551616) :
    r.readUint64 = (.ok v, r.adv 8) ∧ (r.adv 8).rem = rest ∧
      (r.adv 8).position ≤ (r.adv 8).buffer.length ∧
      (r.adv 8).littleEndian = r.littleEndian ∧ (r.adv 8).encoding = r.encoding :=
  ⟨readUint64_step r v rest hw hle h hv,
   by rw [rem_adv, h, drop_seg _ _ 8 (length_uintLE 8 v)],
   wf_adv r 8 hw (by rw [h]; simp [length_uintLE]),
   rfl, rfl⟩

lemma chain_bool (r : ByteReader) (v : Bool) (rest : List Nat)
    (hw : r.position ≤ r.buffer.length)
    (h : r.rem = (if v then 1 else 0) :: rest) :
    r.readBool = (.ok v, r.adv 1) ∧ (r.adv 1).rem = rest ∧
      (r.adv 1).position ≤ (r.adv 1).buffer.length ∧
      (r.adv 1).littleEndian = r.littleEndian ∧ (r.adv 1).encoding = r.encoding :=
  ⟨readBool_step r v rest hw h,
   by rw [rem_adv, h]; rfl,
   wf_adv r 1 hw (by rw [h]; simp),
   rfl, rfl⟩

lemma chain_char (r : ByteReader) (b : Nat) (rest : List Nat) (enc0 : Option Enc)
    (hw : r.position ≤ r.buffer.length) (h : r.rem = b :: rest)
    (henc : r.encoding = enc0) :
    r.readChar = (.ok (decodeText enc0 [b]), r.adv 1) ∧ (r.adv 1).rem = rest ∧
      (r.adv 1).position ≤ (r.adv 1).buffer.length ∧
      (r.adv 1).littleEndian = r.littleEndian ∧ (r.adv 1).encoding = r.encoding :=
  ⟨by rw [readChar_step r b rest hw h, henc],
   by rw [rem_adv, h]; rfl,
   wf_adv r 1 hw (by rw [h]; simp),
   rfl, rfl⟩

lemma chain_cstr (r : ByteReader) (s rest : List Nat)
    (hw : r.position ≤ r.buffer.length) (h : r.rem = s ++ 0 :: rest)
    (hs : ∀ b ∈ s, b ≠ 0) :
    r.readCString = (.ok (decodeText r.encoding s), r.adv (s.length + 1)) ∧
      (r.adv (s.length + 1)).rem = rest ∧
      (r.adv (s.length + 1)).position ≤ (r.adv (s.length + 1)).buffer.length ∧
      (r.adv (s.length + 1)).littleEndian = r.littleEndian ∧
      (r.adv (s.length + 1)).encoding = r.encoding :=
  ⟨readCString_step r s rest h hs,
   by
     rw [rem_adv, h, show s ++ 0 :: rest = (s ++ [0]) ++ rest by simp,
       drop_seg _ _ (s.length + 1) (by simp)],
   wf_adv r (s.length + 1) hw (by rw [h]; simp),
   rfl, rfl⟩

/-- C8: decoding a compressed fragment datagram whose payload the
decompressor rejects does not raise — the fragment is returned with the
raw, still-compressed remaining bytes as its payload, alongside the
sequence and compression metadata read from the header. -/
theorem claim_C8_decompress_failure_keeps_raw_bytes
    (inflate : List Nat → Option (List Nat))
    (mid fc fid mtu ds crc : Nat) (comp : List Nat)
    (hmid : mid < 4294967296) (hcomp : mid &&& (1 <<< 15) ≠ 0)
    (_hfc : fc < 256) (_hfid : fid < 256) (hmtu : mtu < 65536)
    (hds : ds < 4294967296) (hcrc : crc < 4294967296)
    (hfail : inflate comp = none) :
    decodeFragment inflate
      (uintLE 4 mid ++ fc :: fid :: uintLE 2 mtu ++ uintLE 4 ds ++
        uintLE 4 crc ++ comp) =
      .ok ⟨mid, fc, fid, mtu, ds, crc, comp⟩ := by
  set data := uintLE 4 mid ++ fc :: fid :: uintLE 2 mtu ++ uintLE 4 ds ++
    uintLE 4 crc ++ comp with hdata
  obtain ⟨e1, hrem1, hw1, hle1, henc1⟩ :=
    chain_u32 (mkReader data true (some .utf8)) mid
      (fc :: fid :: uintLE 2 mtu ++ uintLE 4 ds ++ uintLE 4 crc ++ comp)
      (wf_mk _ _ _) (by rfl) (by rw [rem_mk, hdata]; simp) hmid
  rw [decodeFragment, e1]
  simp only [pstep]
  obtain ⟨e2, hrem2, hw2, hle2, henc2⟩ :=
    chain_u8 _ fc (fid :: uintLE 2 mtu ++ uintLE 4 ds ++ uintLE 4 crc ++ comp)
      hw1 hrem1
  rw [e2]
  simp only [pstep]
  obtain ⟨e3, hrem3, hw3, hle3, henc3⟩ :=
    chain_u8 _ fid (uintLE 2 mtu ++ uintLE 4 ds ++ uintLE 4 crc ++ comp) hw2 hrem2
  rw [e3]
  simp only [pstep]
  obtain ⟨e4, hrem4, hw4, hle4, henc4⟩ :=
    chain_u16 _ mtu (uintLE 4 ds ++ uintLE 4 crc ++ comp) hw3
      (by rw [hle3, hle2, hle1]; rfl) (by rw [hrem3]; simp) hmtu
  rw [e4]
  simp only [pstep]
  have hic : (⟨mid, fc, fid, mtu, 0, 0, []⟩ : A2SFragment).isCompressed = true := by
    simp only [A2SFragment.isCompressed, bne_iff_ne, ne_eq]
    exact hcomp
  rw [hic]
  simp only [if_true]
  obtain ⟨e5, hrem5, hw5, hle5, henc5⟩ :=
    chain_u32 _ ds (uintLE 4 crc ++ comp) hw4
      (by rw [hle4, hle3, hle2, hle1]; rfl) (by rw [hrem4]; simp) hds
  rw [e5]
  simp only [pstep]
  obtain ⟨e6, hrem6, hw6, hle6, henc6⟩ :=
    chain_u32 _ crc comp hw5
      (by rw [hle5, hle4, hle3, hle2, hle1]; rfl) (by rw [hrem5]) hcrc
  rw [e6]
  simp only [pstep]
  simp only [ByteReader.peek, hrem6, hfail]

/-- Witness for C8: a concrete compressed datagram (message id with bit
15 set) whose two payload bytes the failing decompressor rejects decodes
to a fragment carrying those raw bytes. -/
theorem claim_C8_witness :
    decodeFragment (fun _ => none)
      (uintLE 4 0x8001 ++ 1 :: 0 :: uintLE 2 1200 ++ uintLE 4 99 ++
        uintLE 4 7 ++ [42, 43]) =
      .ok ⟨0x8001, 1, 0, 1200, 99, 7, [42, 43]⟩ :=
  claim_C8_decompress_failure_keeps_raw_bytes (fun _ => none)
    0x8001 1 0 1200 99 7 [42, 43] (by norm_num) (by decide) (by norm_num)
    (by norm_num) (by norm_num) (by norm_num) (by norm_num) rfl

/-- Wire bytes of a modern info response up to (excluding) the
extra-data-flags byte, per the layout `parseSource` reads: protocol
byte, four null-terminated strings, 16-bit app id, three 8-bit counts,
server-type and platform bytes, two boolean bytes, and the
null-terminated version string. -/
def infoPrefix (protocol : Nat) (name mapn folder game : List Nat)
    (appId pc mp bc stByte pfByte : Nat) (pw vac : Bool)
    (version : List Nat) : List Nat :=
  [protocol] ++ name ++ [0] ++ mapn ++ [0] ++ folder ++ [0] ++ game ++ [0] ++
    uintLE 2 appId ++
    [pc, mp, bc, stByte, pfByte, if pw then 1 else 0, if vac then 1 else 0] ++
    version ++ [0]

/-- Lower-cased decoding of a single wire byte under encoding `e`, the
value `parseSource` stores for the server-type and platform fields. -/
def lowerChar (e : Enc) (b : Nat) : TextVal :=
  match decodeText (some e) [b] with
  | .txt s => .txt (strToLower s)
  | .raw bs => .raw bs

lemma textToLower_decodeChar (e : Enc) (b : Nat) :
    textToLower (decodeText (some e) [b]) = .ok (lowerChar e b) := by
  cases e <;> rfl

lemma encoding_mk (buf : List Nat) (le : Bool) (e : Option Enc) :
    (mkReader buf le e).encoding = e := rfl

lemma littleEndian_mk (buf : List Nat) (le : Bool) (e : Option Enc) :
    (mkReader buf le e).littleEndian = le := rfl

lemma read_fail (r : ByteReader) (size : Nat) (hw : r.position ≤ r.buffer.length)
    (h : r.rem.length < size) :
    r.read size = (.error .bufferExhausted, r) := by
  have : r.rem.length = r.buffer.length - r.position := by simp [ByteReader.rem]
  rw [ByteReader.read, if_pos (by omega)]

lemma readUint8_fail (r : ByteReader) (hw : r.position ≤ r.buffer.length)
    (h : r.rem = []) :
    r.readUint8 = (.error .bufferExhausted, r) := by
  rw [ByteReader.readUint8, read_fail r 1 hw (by rw [h]; simp)]
  rfl

lemma readUint16_fail (r : ByteReader) (hw : r.position ≤ r.buffer.length)
    (h : r.rem.length < 2) :
    r.readUint16 = (.error .bufferExhausted, r) := by
  rw [ByteReader.readUint16, read_fail r 2 hw h]
  rfl

/-- Base record of the fixed fields, as `parseSource` builds it before
the optional tail, leaving the flags value as a parameter. -/
def baseInfo (e : Enc) (ping protocol : Nat) (name mapn folder game : List Nat)
    (appId pc mp bc stByte pfByte : Nat) (pw vac : Bool) (version : List Nat)
    (edf : Nat) : SourceInfo :=
  { protocol := protocol, serverName := decodeText (some e) name,
    mapName := decodeText (some e) mapn, folder := decodeText (some e) folder,
    game := decodeText (some e) game, appId := appId, playerCount := pc,
    maxPlayers := mp, botCount := bc, serverType := lowerChar e stByte,
    platform := if lowerChar e pfByte = TextVal.txt "o" then TextVal.txt "m"
      else lowerChar e pfByte,
    passwordProtected := pw, vacEnabled := vac,
    version := decodeText (some e) version, edf := edf, ping := ping,
    port := none, steamId := none, stvPort := none, stvName := none,
    keywords := none, gameId := none }

lemma parseSource_fixed (e : Enc) (ping protocol : Nat)
    (name mapn folder game : List Nat) (appId pc mp bc stByte pfByte : Nat)
    (pw vac : Bool) (version tail : List Nat)
    (hname : ∀ b ∈ name, b ≠ 0) (hmap : ∀ b ∈ mapn, b ≠ 0)
    (hfolder : ∀ b ∈ folder, b ≠ 0) (hgame : ∀ b ∈ game, b ≠ 0)
    (hversion : ∀ b ∈ version, b ≠ 0) (happ : appId < 65536) :
    ∃ r2, parseSource
        (mkReader (infoPrefix protocol name mapn folder game appId pc mp bc
          stByte pfByte pw vac version ++ tail) true (some e)) ping =
        parseSourceEdf r2
          (baseInfo e ping protocol name mapn folder game appId pc mp bc
            stByte pfByte pw vac version) ∧
      r2.rem = tail ∧ r2.position ≤ r2.buffer.length ∧
      r2.littleEndian = true ∧ r2.encoding = some e := by
  have hrem0 : (mkReader (infoPrefix protocol name mapn folder game appId pc mp bc
      stByte pfByte pw vac version ++ tail) true (some e)).rem =
      protocol :: (name ++ 0 :: (mapn ++ 0 :: (folder ++ 0 :: (game ++ 0 ::
        (uintLE 2 appId ++ pc :: mp :: bc :: stByte :: pfByte ::
          (if pw then 1 else 0) :: (if vac then 1 else 0) ::
          (version ++ 0 :: tail)))))) := by
    rw [rem_mk]
    simp [infoPrefix]
  obtain ⟨e1, hrem1, hw1, hle1, henc1⟩ := chain_u8 _ protocol _ (wf_mk _ _ _) hrem0
  obtain ⟨e2, hrem2, hw2, hle2, henc2⟩ := chain_cstr _ name _ hw1 hrem1 hname
  obtain ⟨e3, hrem3, hw3, hle3, henc3⟩ := chain_cstr _ mapn _ hw2 hrem2 hmap
  obtain ⟨e4, hrem4, hw4, hle4, henc4⟩ := chain_cstr _ folder _ hw3 hrem3 hfolder
  obtain ⟨e5, hrem5, hw5, hle5, henc5⟩ := chain_cstr _ game _ hw4 hrem4 hgame
  obtain ⟨e6, hrem6, hw6, hle6, henc6⟩ := chain_u16 _ appId _ hw5 rfl hrem5 happ
  obtain ⟨e7, hrem7, hw7, hle7, henc7⟩ := chain_u8 _ pc _ hw6 hrem6
  obtain ⟨e8, hrem8, hw8, hle8, henc8⟩ := chain_u8 _ mp _ hw7 hrem7
  obtain ⟨e9, hrem9, hw9, hle9, henc9⟩ := chain_u8 _ bc _ hw8 hrem8
  obtain ⟨e10, hrem10, hw10, hle10, henc10⟩ :=
    chain_char _ stByte _ (some e) hw9 hrem9 rfl
  obtain ⟨e11, hrem11, hw11, hle11, henc11⟩ :=
    chain_char _ pfByte _ (some e) hw10 hrem10 rfl
  obtain ⟨e12, hrem12, hw12, hle12, henc12⟩ := chain_bool _ pw _ hw11 hrem11
  obtain ⟨e13, hrem13, hw13, hle13, henc13⟩ := chain_bool _ vac _ hw12 hrem12
  obtain ⟨e14, hrem14, hw14, hle14, henc14⟩ := chain_cstr _ version _ hw13 hrem13
    hversion
  refine ⟨_, ?_, hrem14, hw14, rfl, rfl⟩
  rw [parseSource, e1]
  simp only [pstep]
  rw [e2]
  simp only [pstep]
  rw [e3]
  simp only [pstep]
  rw [e4]
  simp only [pstep]
  rw [e5]
  simp only [pstep]
  rw [e6]
  simp only [pstep]
  rw [e7]
  simp only [pstep]
  rw [e8]
  simp only [pstep]
  rw [e9]
  simp only [pstep]
  rw [e10]
  simp only [pstep]
  rw [textToLower_decodeChar]
  simp only [pstep]
  rw [e11]
  simp only [pstep]
  rw [textToLower_decodeChar]
  simp only [pstep]
  rw [e12]
  simp only [pstep]
  rw [e13]
  simp only [pstep]
  rw [e14]
  simp only [pstep]
  rfl

lemma parseSourceEdf_empty (r : ByteReader) (mkInfo : Nat → SourceInfo)
    (hw : r.position ≤ r.buffer.length) (h : r.rem = []) :
    parseSourceEdf r mkInfo = (.ok (mkInfo 0), r) := by
  rw [parseSourceEdf, readUint8_fail r hw h]
  simp only [pstep]
  have h80 : ((0 : Nat) &&& 0x80 != 0) = false := rfl
  have h10 : ((0 : Nat) &&& 0x10 != 0) = false := rfl
  have h40 : ((0 : Nat) &&& 0x40 != 0) = false := rfl
  have h20 : ((0 : Nat) &&& 0x20 != 0) = false := rfl
  have h01 : ((0 : Nat) &&& 0x01 != 0) = false := rfl
  simp only [h80, h10, h40, h20, h01, condSet, if_false, Bool.false_eq_true]

lemma stage_u16 (info : SourceInfo) (r : ByteReader) (cond : Bool) (v : Nat)
    (rest : List Nat) (set : SourceInfo → Nat → SourceInfo)
    (hw : r.position ≤ r.buffer.length) (hle : r.littleEndian = true)
    (h : r.rem = (if cond then uintLE 2 v else []) ++ rest) (hv : v < 65536) :
    ∃ r2, condSet (.ok info, r) cond ByteReader.readUint16 set =
        (.ok (if cond then set info v else info), r2) ∧ r2.rem = rest ∧
        r2.position ≤ r2.buffer.length ∧ r2.littleEndian = true ∧
        r2.encoding = r.encoding := by
  cases cond
  · exact ⟨r, by simp [condSet], by simpa using h, hw, hle, rfl⟩
  · obtain ⟨he, hrem, hw2, hle2, henc⟩ :=
      chain_u16 r v rest hw hle (by simpa using h) hv
    exact ⟨r.adv 2, by simp [condSet, he], hrem, hw2, by rw [hle2, hle], henc⟩

lemma stage_u64 (info : SourceInfo) (r : ByteReader) (cond : Bool) (v : Nat)
    (rest : List Nat) (set : SourceInfo → Nat → SourceInfo)
    (hw : r.position ≤ r.buffer.length) (hle : r.littleEndian = true)
    (h : r.rem = (if cond then uintLE 8 v else []) ++ rest)
    (hv : v < 18446744073709551616) :
    ∃ r2, condSet (.ok info, r) cond ByteReader.readUint64 set =
        (.ok (if cond then set info v else info), r2) ∧ r2.rem = rest ∧
        r2.position ≤ r2.buffer.length ∧ r2.littleEndian = true ∧
        r2.encoding = r.encoding := by
  cases cond
  · exact ⟨r, by simp [condSet], by simpa using h, hw, hle, rfl⟩
  · obtain ⟨he, hrem, hw2, hle2, henc⟩ :=
      chain_u64 r v rest hw hle (by simpa using h) hv
    exact ⟨r.adv 8, by simp [condSet, he], hrem, hw2, by rw [hle2, hle], henc⟩

lemma stage_cstr (info : SourceInfo) (r : ByteReader) (cond : Bool)
    (s rest : List Nat) (enc0 : Option Enc) (set : SourceInfo → TextVal → SourceInfo)
    (hw : r.position ≤ r.buffer.length) (hle : r.littleEndian = true)
    (h : r.rem = (if cond then s ++ [0] else []) ++ rest)
    (hs : ∀ b ∈ s, b ≠ 0) (henc : r.encoding = enc0) :
    ∃ r2, condSet (.ok info, r) cond ByteReader.readCString set =
        (.ok (if cond then set info (decodeText enc0 s) else info), r2) ∧
        r2.rem = rest ∧ r2.position ≤ r2.buffer.length ∧
        r2.littleEndian = true ∧ r2.encoding = r.encoding := by
  cases cond
  · exact ⟨r, by simp [condSet], by simpa using h, hw, hle, rfl⟩
  · obtain ⟨he, hrem, hw2, hle2, henc2⟩ :=
      chain_cstr r s rest hw (by simpa [List.append_assoc] using h) hs
    refine ⟨r.adv (s.length + 1), ?_, hrem, hw2, by rw [hle2, hle], henc2⟩
    simp only [condSet, if_true, he, henc]

lemma stage_stv (info : SourceInfo) (r : ByteReader) (cond : Bool)
    (p : Nat) (sname rest : List Nat) (enc0 : Option Enc)
    (set : SourceInfo → Nat × TextVal → SourceInfo)
    (hw : r.position ≤ r.buffer.length) (hle : r.littleEndian = true)
    (h : r.rem = (if cond then uintLE 2 p ++ (sname ++ [0]) else []) ++ rest)
    (hp : p < 65536) (hs : ∀ b ∈ sname, b ≠ 0) (henc : r.encoding = enc0) :
    ∃ r2, condSet (.ok info, r) cond
        (fun r => pstep r.readUint16 fun p r => pstep r.readCString fun n r =>
          (.ok (p, n), r)) set =
        (.ok (if cond then set info (p, decodeText enc0 sname) else info), r2) ∧
        r2.rem = rest ∧ r2.position ≤ r2.buffer.length ∧
        r2.littleEndian = true ∧ r2.encoding = r.encoding := by
  cases cond
  · exact ⟨r, by simp [condSet], by simpa using h, hw, hle, rfl⟩
  · obtain ⟨he1, hrem1, hw1, hle1, henc1⟩ :=
      chain_u16 r p ((sname ++ [0]) ++ rest) hw hle
        (by simpa [List.append_assoc] using h) hp
    obtain ⟨he2, hrem2, hw2, hle2, henc2⟩ :=
      chain_cstr (r.adv 2) sname rest hw1
        (by rw [hrem1]; simp) hs
    refine ⟨(r.adv 2).adv (sname.length + 1), ?_, hrem2, hw2,
      by rw [hle2, hle1, hle], by rw [henc2, henc1]⟩
    simp only [condSet, if_true, he1, pstep, he2, henc1, henc]

/-- Extra-data-flags byte assembled from the five optional-field bits. -/
def edfVal (b80 b10 b40 b20 b01 : Bool) : Nat :=
  (if b80 then 0x80 else 0) + (if b10 then 0x10 else 0) +
  (if b40 then 0x40 else 0) + (if b20 then 0x20 else 0) +
  (if b01 then 0x01 else 0)

lemma edfVal_t80 (b80 b10 b40 b20 b01 : Bool) :
    (edfVal b80 b10 b40 b20 b01 &&& 0x80 != 0) = b80 := by
  cases b80 <;> cases b10 <;> cases b40 <;> cases b20 <;> cases b01 <;> decide

lemma edfVal_t10 (b80 b10 b40 b20 b01 : Bool) :
    (edfVal b80 b10 b40 b20 b01 &&& 0x10 != 0) = b10 := by
  cases b80 <;> cases b10 <;> cases b40 <;> cases b20 <;> cases b01 <;> decide

lemma edfVal_t40 (b80 b10 b40 b20 b01 : Bool) :
    (edfVal b80 b10 b40 b20 b01 &&& 0x40 != 0) = b40 := by
  cases b80 <;> cases b10 <;> cases b40 <;> cases b20 <;> cases b01 <;> decide

lemma edfVal_t20 (b80 b10 b40 b20 b01 : Bool) :
    (edfVal b80 b10 b40 b20 b01 &&& 0x20 != 0) = b20 := by
  cases b80 <;> cases b10 <;> cases b40 <;> cases b20 <;> cases b01 <;> decide

lemma edfVal_t01 (b80 b10 b40 b20 b01 : Bool) :
    (edfVal b80 b10 b40 b20 b01 &&& 0x01 != 0) = b01 := by
  cases b80 <;> cases b10 <;> cases b40 <;> cases b20 <;> cases b01 <;> decide

/-- C7: a modern info response truncated immediately before the
extra-data-flags byte parses successfully, with `edf = 0` and no
optional field populated; the `BufferExhausted` raised while reading
that one byte is recovered locally, while the same condition anywhere
else in the parse — here at the very first byte, and inside an optional
field announced by flag 0x80 — surfaces as a failure. -/
theorem claim_C7_missing_edf_tolerated (e : Enc) (ping protocol : Nat)
    (name mapn folder game : List Nat) (appId pc mp bc stByte pfByte : Nat)
    (pw vac : Bool) (version : List Nat)
    (hname : ∀ b ∈ name, b ≠ 0) (hmap : ∀ b ∈ mapn, b ≠ 0)
    (hfolder : ∀ b ∈ folder, b ≠ 0) (hgame : ∀ b ∈ game, b ≠ 0)
    (hversion : ∀ b ∈ version, b ≠ 0) (happ : appId < 65536) :
    (parseSource (mkReader (infoPrefix protocol name mapn folder game appId pc mp
        bc stByte pfByte pw vac version) true (some e)) ping).1 =
      .ok (baseInfo e ping protocol name mapn folder game appId pc mp bc stByte
        pfByte pw vac version 0) ∧
    (parseSource (mkReader [] true (some e)) ping).1 = .error .bufferExhausted ∧
    (parseSource (mkReader (infoPrefix protocol name mapn folder game appId pc mp
        bc stByte pfByte pw vac version ++ [0x80]) true (some e)) ping).1 =
      .error .bufferExhausted := by
  refine ⟨?_, ?_, ?_⟩
  · obtain ⟨r2, heq, hrem, hw, _hle, _henc⟩ := parseSource_fixed e ping protocol
      name mapn folder game appId pc mp bc stByte pfByte pw vac version []
      hname hmap hfolder hgame hversion happ
    rw [← List.append_nil (infoPrefix protocol name mapn folder game appId pc mp
      bc stByte pfByte pw vac version), heq,
      parseSourceEdf_empty r2 _ hw hrem]
  · rw [parseSource, readUint8_fail (mkReader [] true (some e)) (wf_mk _ _ _)
      (rem_mk _ _ _)]
    rfl
  · obtain ⟨r2, heq, hrem, hw, hle, _henc⟩ := parseSource_fixed e ping protocol
      name mapn folder game appId pc mp bc stByte pfByte pw vac version [0x80]
      hname hmap hfolder hgame hversion happ
    rw [heq, parseSourceEdf]
    obtain ⟨eA, hremA, hwA, hleA, _hencA⟩ := chain_u8 r2 0x80 [] hw hrem
    rw [eA]
    simp only [pstep]
    have ht : ((0x80 : Nat) &&& 0x80 != 0) = true := rfl
    rw [ht]
    simp [condSet, readUint16_fail (r2.adv 1) hwA (by rw [hremA]; simp)]

/-- Witness for C7: a concrete prefix (protocol 17, single-letter
strings, appId 730) truncated before the flags byte parses to the base
record with `edf = 0` and all optional fields absent. -/
theorem claim_C7_witness :
    (parseSource (mkReader (infoPrefix 17 [84] [100] [99] [67] 730 10 32 0 100
      108 false true [49]) true (some .utf8)) 0).1 =
      .ok (baseInfo .utf8 0 17 [84] [100] [99] [67] 730 10 32 0 100 108 false
        true [49] 0) :=
  (claim_C7_missing_edf_tolerated .utf8 0 17 [84] [100] [99] [67] 730 10 32 0 100
    108 false true [49] (by decide) (by decide) (by decide) (by decide)
    (by decide) (by norm_num)).1

/-- C6: for every subset of the five extra-data-flag bits, parsing a
modern info response whose flags byte encodes exactly that subset and
whose tail holds exactly that subset's fields — appended in the fixed
order 0x80 (port), 0x10 (64-bit id), 0x40 (spectator port and name),
0x20 (keywords), 0x01 (64-bit product id) — populates exactly those
optional fields and no others. -/
theorem claim_C6_edf_optional_fields (e : Enc) (ping protocol : Nat)
    (name mapn folder game : List Nat) (appId pc mp bc stByte pfByte : Nat)
    (pw vac : Bool) (version : List Nat) (b80 b10 b40 b20 b01 : Bool)
    (port steamId stvPort gameId : Nat) (stvName keywords : List Nat)
    (hname : ∀ b ∈ name, b ≠ 0) (hmap : ∀ b ∈ mapn, b ≠ 0)
    (hfolder : ∀ b ∈ folder, b ≠ 0) (hgame : ∀ b ∈ game, b ≠ 0)
    (hversion : ∀ b ∈ version, b ≠ 0) (happ : appId < 65536)
    (hport : port < 65536) (hsteam : steamId < 18446744073709551616)
    (hstvp : stvPort < 65536) (hgid : gameId < 18446744073709551616)
    (hstvn : ∀ b ∈ stvName, b ≠ 0) (hkw : ∀ b ∈ keywords, b ≠ 0) :
    (parseSource (mkReader (infoPrefix protocol name mapn folder game appId pc mp
        bc stByte pfByte pw vac version ++
        edfVal b80 b10 b40 b20 b01 ::
          ((if b80 then uintLE 2 port else []) ++
           ((if b10 then uintLE 8 steamId else []) ++
            ((if b40 then uintLE 2 stvPort ++ (stvName ++ [0]) else []) ++
             ((if b20 then keywords ++ [0] else []) ++
              (if b01 then uintLE 8 gameId else [])))))) true (some e)) ping).1 =
      .ok { baseInfo e ping protocol name mapn folder game appId pc mp bc stByte
              pfByte pw vac version (edfVal b80 b10 b40 b20 b01) with
            port := if b80 then some port else none,
            steamId := if b10 then some steamId else none,
            stvPort := if b40 then some stvPort else none,
            stvName := if b40 then some (decodeText (some e) stvName) else none,
            keywords := if b20 then some (decodeText (some e) keywords) else none,
            gameId := if b01 then some gameId else none } := by
  obtain ⟨r2, heq, hrem, hw, hle, henc⟩ := parseSource_fixed e ping protocol
    name mapn folder game appId pc mp bc stByte pfByte pw vac version _
    hname hmap hfolder hgame hversion happ
  rw [heq, parseSourceEdf]
  obtain ⟨eA, hremA, hwA, hleA, hencA⟩ := chain_u8 r2 (edfVal b80 b10 b40 b20 b01)
    _ hw hrem
  rw [eA]
  simp only []
  rw [pstep_ok]
  rw [edfVal_t80, edfVal_t10, edfVal_t40, edfVal_t20, edfVal_t01]
  obtain ⟨rB, eB, hremB, hwB, hleB, hencB⟩ := stage_u16 _ (r2.adv 1) b80 port _ _
    hwA (by rw [hleA, hle]) hremA hport
  rw [eB]
  obtain ⟨rC, eC, hremC, hwC, hleC, hencC⟩ := stage_u64 _ rB b10 steamId _ _
    hwB hleB hremB hsteam
  rw [eC]
  obtain ⟨rD, eD, hremD, hwD, hleD, hencD⟩ := stage_stv _ rC b40 stvPort stvName _
    (some e) _ hwC hleC hremC hstvp hstvn
    (by rw [hencC, hencB, hencA, henc])
  rw [eD]
  obtain ⟨rE, eE, hremE, hwE, hleE, hencE⟩ := stage_cstr _ rD b20 keywords _
    (some e) _ hwD hleD hremD hkw
    (by rw [hencD, hencC, hencB, hencA, henc])
  rw [eE]
  obtain ⟨rF, eF, _hremF, _hwF, _hleF, _hencF⟩ := stage_u64 _ rE b01 gameId [] _
    hwE hleE (by simpa using hremE) hgid
  rw [eF]
  cases b80 <;> cases b10 <;> cases b40 <;> cases b20 <;> cases b01 <;>
    simp [baseInfo]

/-- Witness for C6 at the subset {0x80, 0x20}: the port and keywords
fields are populated and the other three optional fields stay absent. -/
theorem claim_C6_witness :
    (parseSource (mkReader (infoPrefix 17 [84] [100] [99] [67] 730 10 32 0 100
        108 false true [49] ++
        edfVal true false false true false ::
          ((if true then uintLE 2 27015 else []) ++
           ((if false then uintLE 8 76561198000000000 else []) ++
            ((if false then uintLE 2 27020 ++ ([83] ++ [0]) else []) ++
             ((if true then [107] ++ [0] else []) ++
              (if false then uintLE 8 730 else [])))))) true (some .utf8)) 0).1 =
      .ok { baseInfo .utf8 0 17 [84] [100] [99] [67] 730 10 32 0 100 108 false
              true [49] (edfVal true false false true false) with
            port := some 27015,
            steamId := none,
            stvPort := none,
            stvName := none,
            keywords := some (decodeText (some .utf8) [107]),
            gameId := none } := by
  have h := claim_C6_edf_optional_fields .utf8 0 17 [84] [100] [99] [67] 730 10 32
    0 100 108 false true [49] true false false true false
    27015 76561198000000000 27020 730 [83] [107]
    (by decide) (by decide) (by decide) (by decide) (by decide) (by norm_num)
    (by norm_num) (by norm_num) (by norm_num) (by norm_num) (by decide) (by decide)
  simpa using h

/-- C9 failing input: one complete modern info response (protocol 17,
name "T", map "d", folder "c", game "C", appId 730, counts 10/32/0,
server type byte 'd', platform byte 'l', booleans, version "1", edf 0).
Parsing it with the raw (no-encoding) configuration fails with the
`TypeError` of calling `toLowerCase` on a `Buffer` at the server-type
field, while the same bytes under UTF-8 or Latin-1 parse successfully —
so the text-decoding mode does change the outcome of parsing, contrary
to the claim. -/
theorem claim_C9_raw_mode_changes_parse_outcome :
    (parseSource (mkReader (infoPrefix 17 [84] [100] [99] [67] 730 10 32 0 100
      108 false true [49] ++ [0]) true none) 0).1 = .error .typeError ∧
    (parseSource (mkReader (infoPrefix 17 [84] [100] [99] [67] 730 10 32 0 100
      108 false true [49] ++ [0]) true (some .utf8)) 0).1 =
      .ok { protocol := 17, serverName := .txt "T", mapName := .txt "d",
            folder := .txt "c", game := .txt "C", appId := 730,
            playerCount := 10, maxPlayers := 32, botCount := 0,
            serverType := .txt "d", platform := .txt "l",
            passwordProtected := false, vacEnabled := true,
            version := .txt "1", edf := 0, ping := 0, port := none,
            steamId := none, stvPort := none, stvName := none,
            keywords := none, gameId := none } ∧
    (parseSource (mkReader (infoPrefix 17 [84] [100] [99] [67] 730 10 32 0 100
      108 false true [49] ++ [0]) true (some .latin1)) 0).1 =
      .ok { protocol := 17, serverName := .txt "T", mapName := .txt "d",
            folder := .txt "c", game := .txt "C", appId := 730,
            playerCount := 10, maxPlayers := 32, botCount := 0,
            serverType := .txt "d", platform := .txt "l",
            passwordProtected := false, vacEnabled := true,
            version := .txt "1", edf := 0, ping := 0, port := none,
            steamId := none, stvPort := none, stvName := none,
            keywords := none, gameId := none } := by
  exact ⟨rfl, rfl, rfl⟩

end A2S
